import Mathlib

/-!
Shallow embedding of the go-trader core: the state-manager ledger
(`internal/ledger/ledger.go`, embedded `package state` part), the AMQP
message handler (`MessageHandler` processors), and the strategy engine
(`internal/strategy/engine.go`).

Go `float64` fields are modelled as `ℚ`, `*float64` as `Option ℚ`,
`int64`/`int` as `Int`, strings as `String`.  Imperative loops become
structural recursion; each definition mirrors one Go function and is
named after it.
-/

namespace GoTrader

/-- Bid or ask OHLCV payload of a bar (`state.OHLCV`). -/
structure OHLCV where
  o : ℚ
  h : ℚ
  l : ℚ
  c : ℚ
  v : ℚ
  deriving DecidableEq, Repr

/-- Volume-weighted average prices (`state.Vwap`); Go pointers become `Option`. -/
structure Vwap where
  tickVwap : Option ℚ
  barVwap : Option ℚ
  deriving DecidableEq, Repr

/-- Exponential moving averages (`state.Emas`). -/
structure Emas where
  ema5 : Option ℚ
  ema8 : Option ℚ
  ema30 : Option ℚ
  ema50 : Option ℚ
  deriving DecidableEq, Repr

/-- Donchian channel values (`state.Donchian`). -/
structure Donchian where
  upper : Option ℚ
  middle : Option ℚ
  lower : Option ℚ
  deriving DecidableEq, Repr

/-- Bollinger band values (`state.Bollinger`). -/
structure Bollinger where
  upper : Option ℚ
  middle : Option ℚ
  lower : Option ℚ
  deriving DecidableEq, Repr

/-- Double exponential moving averages (`state.Demas`). -/
structure Demas where
  dema25 : ℚ
  dema50 : ℚ
  dema100 : ℚ
  dema200 : ℚ
  deriving DecidableEq, Repr

/-- MACD values (`state.Macd`). -/
structure Macd where
  line : ℚ
  signal : ℚ
  hist : ℚ
  deriving DecidableEq, Repr

/-- RSI values (`state.Rsi`). -/
structure Rsi where
  fast : ℚ
  slow : ℚ
  deriving DecidableEq, Repr

/-- Stochastic oscillator values (`state.Stoch`). -/
structure Stoch where
  k : ℚ
  d : ℚ
  deriving DecidableEq, Repr

/-- Keltner channel values (`state.Keltner`). -/
structure Keltner where
  upper : ℚ
  middle : ℚ
  lower : ℚ
  deriving DecidableEq, Repr

/-- Supertrend indicator values (`state.Supertrend`). -/
structure Supertrend where
  upper : ℚ
  lower : ℚ
  deriving DecidableEq, Repr

/-- A single market tick (`state.Tick`). -/
structure Tick where
  producedAt : Int
  timestamp : Int
  pairID : Int
  instrument : String
  bid : ℚ
  ask : ℚ
  bidVol : ℚ
  askVol : ℚ
  deriving DecidableEq, Repr

/-- A live bar from the real-time feed (`state.Bar`). -/
structure Bar where
  producedAt : Int
  barStartTimestamp : Int
  barEndTimestamp : Int
  pairID : Int
  instrument : String
  period : String
  bid : OHLCV
  ask : OHLCV
  bidVwap : Vwap
  askVwap : Vwap
  bidEmas : Emas
  askEmas : Emas
  bidDonchian : Donchian
  askDonchian : Donchian
  bidBollinger : Bollinger
  askBollinger : Bollinger
  deriving DecidableEq, Repr

/-- A bulk-fetched historical bar with the rich indicator set (`state.HistoricalBar`). -/
structure HistoricalBar where
  producedAt : Int
  barStartTimestamp : Int
  barEndTimestamp : Int
  pairID : Int
  instrument : String
  period : String
  bid : OHLCV
  ask : OHLCV
  bidVwap : Vwap
  askVwap : Vwap
  bidAtr : ℚ
  askAtr : ℚ
  bidObv : ℚ
  askObv : ℚ
  bidDemas : Demas
  askDemas : Demas
  bidMacd : Macd
  askMacd : Macd
  bidRsi : Rsi
  askRsi : Rsi
  bidStoch : Stoch
  askStoch : Stoch
  bidCci : ℚ
  askCci : ℚ
  bidMfi : ℚ
  askMfi : ℚ
  bidBollinger : Bollinger
  askBollinger : Bollinger
  bidKeltner : Keltner
  askKeltner : Keltner
  bidDonchian : Donchian
  askDonchian : Donchian
  bidSupertrend : Supertrend
  askSupertrend : Supertrend
  sequence : Int
  deriving DecidableEq, Repr

/-- Overall trading-account state (`state.Account`). -/
structure Account where
  accountID : String
  balance : ℚ
  equity : ℚ
  marginUsed : ℚ
  freeMargin : ℚ
  marginAvailable : ℚ
  leverage : ℚ
  accountPnL : ℚ
  unrealizedPnL : ℚ
  deriving DecidableEq, Repr

/-- One open trade (`state.Position`). -/
structure Position where
  orderID : String
  label : String
  instrument : String
  orderCommand : String
  amount : ℚ
  openPrice : ℚ
  stopLoss : ℚ
  takeProfit : ℚ
  pnl : ℚ
  state : String
  deriving DecidableEq, Repr

/-- Complete account-status message (`state.AccountInfo`). -/
structure AccountInfo where
  producedAt : Int
  timestamp : Int
  account : Account
  positions : List Position
  deriving DecidableEq, Repr

/-- Go zero value of `Account`, the initial value inside a fresh `StateManager`. -/
def Account.zero : Account :=
  ⟨"", 0, 0, 0, 0, 0, 0, 0, 0⟩

/-- Go zero value of `AccountInfo`. -/
def AccountInfo.zero : AccountInfo :=
  ⟨0, 0, Account.zero, []⟩

/-- Number of recent ticks kept per instrument (`tickRingBufferSize`). -/
def tickRingBufferSize : Nat := 20

/-- Number of recent bars kept per instrument and period (`barRingBufferSize`). -/
def barRingBufferSize : Nat := 200

/-- First pass of the Go in-place exchange sort in `UpdateHistoricalBar` /
`updateHistoricalSequenceOnLiveBar`: with `x` at slot `i` and `xs` the suffix,
scan `j = i+1 ..` doing `if a[i].BarEndTimestamp < a[j].BarEndTimestamp
then swap`.  Returns the final value of slot `i` and the reordered suffix. -/
def exchangePass (x : HistoricalBar) : List HistoricalBar → HistoricalBar × List HistoricalBar
  | [] => (x, [])
  | y :: ys =>
    if x.barEndTimestamp < y.barEndTimestamp then
      let r := exchangePass y ys
      (r.1, x :: r.2)
    else
      let r := exchangePass x ys
      (r.1, y :: r.2)

theorem exchangePass_length (x : HistoricalBar) (xs : List HistoricalBar) :
    (exchangePass x xs).2.length = xs.length := by
  induction xs generalizing x with
  | nil => rfl
  | cons y ys ih =>
    simp only [exchangePass]
    by_cases h : x.barEndTimestamp < y.barEndTimestamp <;>
      simp [h, ih]

/-- The full double loop `for i ...: for j := i+1 ...: if a[i].ts < a[j].ts swap`,
sorting newest-first by `BarEndTimestamp`, as it appears twice in the Go
state manager. -/
def exchangeSort : List HistoricalBar → List HistoricalBar
  | [] => []
  | x :: xs =>
    let r := exchangePass x xs
    r.1 :: exchangeSort r.2
termination_by l => l.length
decreasing_by
  simp only [exchangePass_length, List.length_cons]
  omega

/-- Deduplication by `BarEndTimestamp` with a `seen` set, first occurrence
winning, as in steps 4 of `UpdateHistoricalBar` and 3 of
`updateHistoricalSequenceOnLiveBar`. -/
def dedupByTimestamp (seen : List Int) : List HistoricalBar → List HistoricalBar
  | [] => []
  | b :: bs =>
    if b.barEndTimestamp ∈ seen then
      dedupByTimestamp seen bs
    else
      b :: dedupByTimestamp (b.barEndTimestamp :: seen) bs

/-- The Go loop `for i: if periodBars[i].BarEndTimestamp == bar.BarEndTimestamp
then periodBars[i] = bar; return`: replace the first entry with equal
bar-end timestamp, `none` when no entry matches. -/
def replaceByTimestamp (bar : HistoricalBar) : List HistoricalBar → Option (List HistoricalBar)
  | [] => none
  | b :: bs =>
    if b.barEndTimestamp = bar.barEndTimestamp then
      some (bar :: bs)
    else
      (replaceByTimestamp bar bs).map (b :: ·)

/-- The legacy Go loop `for i: if periodBars[i].Sequence == bar.Sequence &&
bar.Sequence != 0 then periodBars[i] = bar; return`. -/
def replaceBySequence (bar : HistoricalBar) : List HistoricalBar → Option (List HistoricalBar)
  | [] => none
  | b :: bs =>
    if b.sequence = bar.sequence ∧ bar.sequence ≠ 0 then
      some (bar :: bs)
    else
      (replaceBySequence bar bs).map (b :: ·)

/-- Per-(instrument, period) body of `StateManager.UpdateHistoricalBar`
(ledger.go 461-519): dedup by timestamp, legacy dedup by sequence, else
append, exchange-sort newest-first, dedup by timestamp, trim to 200. -/
def updateHistoricalBarList (periodBars : List HistoricalBar) (bar : HistoricalBar) :
    List HistoricalBar :=
  match replaceByTimestamp bar periodBars with
  | some l => l
  | none =>
    match replaceBySequence bar periodBars with
    | some l => l
    | none =>
      ((dedupByTimestamp [] (exchangeSort (periodBars ++ [bar]))).take barRingBufferSize)

/-- Conversion of a live bar to the historical-bar format inside
`updateHistoricalSequenceOnLiveBar` (ledger.go 546-582): OHLCV, Bollinger and
Donchian are carried over, every other indicator is zeroed (`Vwap{TickVwap:
nil}` leaves both pointers nil), and `Sequence` is set to 1. -/
def liveBarToHistoricalBar (liveBar : Bar) : HistoricalBar where
  producedAt := liveBar.producedAt
  barStartTimestamp := liveBar.barStartTimestamp
  barEndTimestamp := liveBar.barEndTimestamp
  pairID := liveBar.pairID
  instrument := liveBar.instrument
  period := liveBar.period
  bid := liveBar.bid
  ask := liveBar.ask
  bidVwap := ⟨none, none⟩
  askVwap := ⟨none, none⟩
  bidAtr := 0
  askAtr := 0
  bidObv := 0
  askObv := 0
  bidDemas := ⟨0, 0, 0, 0⟩
  askDemas := ⟨0, 0, 0, 0⟩
  bidMacd := ⟨0, 0, 0⟩
  askMacd := ⟨0, 0, 0⟩
  bidRsi := ⟨0, 0⟩
  askRsi := ⟨0, 0⟩
  bidStoch := ⟨0, 0⟩
  askStoch := ⟨0, 0⟩
  bidCci := 0
  askCci := 0
  bidMfi := 0
  askMfi := 0
  bidBollinger := liveBar.bidBollinger
  askBollinger := liveBar.askBollinger
  bidKeltner := ⟨0, 0, 0⟩
  askKeltner := ⟨0, 0, 0⟩
  bidDonchian := liveBar.bidDonchian
  askDonchian := liveBar.askDonchian
  bidSupertrend := ⟨0, 0⟩
  askSupertrend := ⟨0, 0⟩
  sequence := 1

/-- Per-(instrument, period) body of
`StateManager.updateHistoricalSequenceOnLiveBar` (ledger.go 584-626) after
the conversion: if a bar with the same end timestamp exists, replace it in
place, re-sort newest-first and trim; otherwise prepend as newest, dedup by
timestamp (first occurrence wins) and trim. -/
def updateHistoricalSequenceOnLiveBarList (historicalBars : List HistoricalBar)
    (historicalBar : HistoricalBar) : List HistoricalBar :=
  match replaceByTimestamp historicalBar historicalBars with
  | some l => (exchangeSort l).take barRingBufferSize
  | none =>
    (dedupByTimestamp [] (historicalBar :: historicalBars)).take barRingBufferSize

/-- The in-memory state cache (`state.StateManager`); Go maps become total
functions into the empty-slice default. -/
structure StateManager where
  ticks : String → List Tick
  bars : String → String → List Bar
  historicalBars : String → String → List HistoricalBar
  accountInfo : AccountInfo

/-- Fresh state manager (`NewStateManager`): empty maps, zero account. -/
def NewStateManager : StateManager where
  ticks := fun _ => []
  bars := fun _ _ => []
  historicalBars := fun _ _ => []
  accountInfo := AccountInfo.zero

/-- `StateManager.UpdateTick`: append to the instrument's tick ring, trim
from the front to `tickRingBufferSize`. -/
def UpdateTick (sm : StateManager) (tick : Tick) : StateManager :=
  { sm with
    ticks := fun i =>
      if i = tick.instrument then
        let instrumentTicks := sm.ticks tick.instrument ++ [tick]
        if instrumentTicks.length > tickRingBufferSize then
          instrumentTicks.drop (instrumentTicks.length - tickRingBufferSize)
        else
          instrumentTicks
      else
        sm.ticks i }

/-- `StateManager.UpdateBar`: append to the live-bar ring for the bar's
(instrument, period), trim from the front to `barRingBufferSize`. -/
def UpdateBar (sm : StateManager) (bar : Bar) : StateManager :=
  { sm with
    bars := fun i p =>
      if i = bar.instrument ∧ p = bar.period then
        let periodBars := sm.bars bar.instrument bar.period ++ [bar]
        if periodBars.length > barRingBufferSize then
          periodBars.drop (periodBars.length - barRingBufferSize)
        else
          periodBars
      else
        sm.bars i p }

/-- `StateManager.UpdateHistoricalBar` at the map level: rewrite only the
bar's (instrument, period) slot. -/
def UpdateHistoricalBar (sm : StateManager) (bar : HistoricalBar) : StateManager :=
  { sm with
    historicalBars := fun i p =>
      if i = bar.instrument ∧ p = bar.period then
        updateHistoricalBarList (sm.historicalBars bar.instrument bar.period) bar
      else
        sm.historicalBars i p }

/-- `StateManager.UpdateLiveBar` (ledger.go 521-531): merge directly into the
canonical historical buffer via `updateHistoricalSequenceOnLiveBar`; the
secondary live-bar ring (`sm.bars`) is not touched. -/
def UpdateLiveBar (sm : StateManager) (bar : Bar) : StateManager :=
  { sm with
    historicalBars := fun i p =>
      if i = bar.instrument ∧ p = bar.period then
        updateHistoricalSequenceOnLiveBarList (sm.historicalBars bar.instrument bar.period)
          (liveBarToHistoricalBar bar)
      else
        sm.historicalBars i p }

/-- `StateManager.UpdateAccountInfo`: replace the account snapshot wholesale. -/
def UpdateAccountInfo (sm : StateManager) (info : AccountInfo) : StateManager :=
  { sm with accountInfo := info }

/-- One call into the canonical-series mutators, for stating reachability
invariants over call sequences. -/
inductive LedgerCall where
  | tick (t : Tick)
  | live (b : Bar)
  | hist (b : HistoricalBar)
  | account (info : AccountInfo)
  deriving Repr

/-- Apply one ledger call to the state manager. -/
def applyLedgerCall (sm : StateManager) : LedgerCall → StateManager
  | .tick t => UpdateTick sm t
  | .live b => UpdateLiveBar sm b
  | .hist b => UpdateHistoricalBar sm b
  | .account info => UpdateAccountInfo sm info

/-- Run a sequence of ledger calls from the fresh (empty) state manager. -/
def runLedgerCalls (calls : List LedgerCall) : StateManager :=
  calls.foldl applyLedgerCall NewStateManager

/-! ### Message handler (`internal/amqp`, `MessageHandler` processors) -/

/-- Fate of one inbound delivery in a `process*` function. -/
inductive MsgOutcome where
  | nackedMalformed
  | ackedDiscarded
  | ackedApplied
  deriving DecidableEq, Repr

/-- `staleMessageThreshold = 3 * time.Second`, in milliseconds. -/
def staleMessageThresholdMillis : Int := 3000

/-- `isStale` (consumer.go 142-145): message production timestamp older than
the threshold relative to wall-clock `now` (milliseconds). -/
def isStale (now producedAt : Int) : Bool :=
  now - producedAt > staleMessageThresholdMillis

/-- `MessageHandler.processTick`: `none` models a body `json.Unmarshal`
rejects; a stale tick is acked and dropped; otherwise `UpdateTick` runs. -/
def processTick (sm : StateManager) (parsed : Option Tick) (now : Int) :
    StateManager × MsgOutcome :=
  match parsed with
  | none => (sm, .nackedMalformed)
  | some tick =>
    if isStale now tick.producedAt then
      (sm, .ackedDiscarded)
    else
      (UpdateTick sm tick, .ackedApplied)

/-- `MessageHandler.processBar`: live bars get the same staleness filter,
then `UpdateLiveBar`. -/
def processBar (sm : StateManager) (parsed : Option Bar) (now : Int) :
    StateManager × MsgOutcome :=
  match parsed with
  | none => (sm, .nackedMalformed)
  | some bar =>
    if isStale now bar.producedAt then
      (sm, .ackedDiscarded)
    else
      (UpdateLiveBar sm bar, .ackedApplied)

/-- `MessageHandler.processHistoricalBar` (part_005 lines 268-280): parse,
then apply `UpdateHistoricalBar` directly — the source has no staleness
check on this path. -/
def processHistoricalBar (sm : StateManager) (parsed : Option HistoricalBar) (_now : Int) :
    StateManager × MsgOutcome :=
  match parsed with
  | none => (sm, .nackedMalformed)
  | some bar => (UpdateHistoricalBar sm bar, .ackedApplied)

/-- `MessageHandler.processAccountInfo`: staleness filter, then replace. -/
def processAccountInfo (sm : StateManager) (parsed : Option AccountInfo) (now : Int) :
    StateManager × MsgOutcome :=
  match parsed with
  | none => (sm, .nackedMalformed)
  | some info =>
    if isStale now info.producedAt then
      (sm, .ackedDiscarded)
    else
      (UpdateAccountInfo sm info, .ackedApplied)

/-! ### Strategy engine (`internal/strategy/engine.go`) -/

/-- Trading signal returned by a strategy (`strategy.Signal`). -/
inductive Signal where
  | signalNone
  | signalBuy
  | signalSell
  deriving DecidableEq, Repr

/-- Per-run settings kept by the engine (`strategy.runConfig`), without the
Go-side channel and strategy object. -/
structure RunConfig where
  instrument : String
  period : String
  strategyKey : String
  runID : String
  qty : ℚ
  atrMult : ℚ
  running : Bool
  deriving DecidableEq, Repr

/-- The engine's run registry, `runs map[string]*runConfig`. -/
def RunMap : Type := String → Option RunConfig

/-- `Engine.key`: `instrument + "|" + period`. -/
def engineKey (instrument period : String) : String :=
  instrument ++ "|" ++ period

/-- `Engine.StartStrategyWithParams` (engine.go 91-118) on the run registry:
a key with an existing run is left alone; otherwise the quantity and ATR
multiplier are clamped by the guardrails and a fresh run is registered.
`runID` stands for the generated random identifier. -/
def StartStrategyWithParams (runs : RunMap) (instrument period strategyKey : String)
    (qty atrMult : ℚ) (runID : String) : RunMap :=
  let key := engineKey instrument period
  match runs key with
  | some _ => runs
  | none =>
    let qty1 := if qty ≤ 0 then 1 / 10 else qty
    let qty2 := if qty1 > 100 then 100 else qty1
    let atrMult1 := if atrMult ≤ 0 then 1 else atrMult
    let atrMult2 := if atrMult1 > 20 then 20 else atrMult1
    fun k =>
      if k = key then
        some ⟨instrument, period, strategyKey, runID, qty2, atrMult2, true⟩
      else
        runs k

/-- `Engine.StopStrategy` on the run registry: delete the key when present. -/
def StopStrategy (runs : RunMap) (instrument period : String) : RunMap :=
  let key := engineKey instrument period
  match runs key with
  | some _ => fun k => if k = key then none else runs k
  | none => runs

/-- `getPipSize` (engine.go 233-238): 0.01 for JPY crosses, 0.0001 otherwise.
Go's `strings.Contains` becomes a substring test on the character list. -/
def getPipSize (instrument : String) : ℚ :=
  if ("JPY".toList).IsInfix instrument.toList then 1 / 100 else 1 / 10000

/-- New-bar gate of one polling iteration of `Engine.loop` (engine.go
150-160): with the freshly read series and the remembered `lastSeq`, return
the updated `lastSeq` and whether the strategy's `Evaluate` is invoked. -/
def loopStep (bars : List HistoricalBar) (lastSeq : Int) : Int × Bool :=
  match bars with
  | [] => (lastSeq, false)
  | latest :: _ =>
    if latest.sequence = lastSeq then
      (lastSeq, false)
    else
      (latest.sequence, true)

/-- ATR actually used by `Engine.loop` (engine.go 170-173): `BidAtr`, falling
back to `AskAtr` when `BidAtr <= 0`. -/
def availableAtr (latest : HistoricalBar) : ℚ :=
  if latest.bidAtr ≤ 0 then latest.askAtr else latest.bidAtr

/-- Pip distance for the protective orders (engine.go 174-178): ATR-derived
`atrMult * (atr / pip)` clamped below at 1 when ATR is positive, else the
fixed default 10. -/
def computeSlPips (atrMult : ℚ) (latest : HistoricalBar) (pip : ℚ) : ℚ :=
  let atr := availableAtr latest
  if atr > 0 then
    let slPips := atrMult * (atr / pip)
    if slPips < 1 then 1 else slPips
  else
    10

/-- Order prices computed by `Engine.loop` on a Buy/Sell signal (engine.go
179-188): mid price of the newest bar, stop loss and take profit `slPips`
pips on either side. -/
def orderPrices (atrMult : ℚ) (instrument : String) (latest : HistoricalBar)
    (sig : Signal) : ℚ × ℚ × ℚ :=
  let pip := getPipSize instrument
  let slPips := computeSlPips atrMult latest pip
  let price := (latest.bid.c + latest.ask.c) / 2
  match sig with
  | .signalBuy => (price, price - slPips * pip, price + slPips * pip)
  | _ => (price, price + slPips * pip, price - slPips * pip)

/-! ### Supporting lemmas on the series operations -/

/-- Entries of the series are compared by bar-end timestamp throughout the
state manager; this is the dedup identity relation. -/
def TsNe (a b : HistoricalBar) : Prop :=
  a.barEndTimestamp ≠ b.barEndTimestamp

theorem tsNe_symm : ∀ {x y : HistoricalBar}, TsNe x y → TsNe y x :=
  fun h => Ne.symm h

/-- Newest-first comparison used by the exchange sort. -/
def TsGe (a b : HistoricalBar) : Prop :=
  b.barEndTimestamp ≤ a.barEndTimestamp

/-- Strict newest-first comparison; antisymmetric, hence sorted lists are
unique per permutation class. -/
def TsGt (a b : HistoricalBar) : Prop :=
  b.barEndTimestamp < a.barEndTimestamp

instance : IsAntisymm HistoricalBar TsGt where
  antisymm _ _ h h' := absurd (lt_trans h h') (lt_irrefl _)

theorem dedupByTimestamp_mem_ts (seen : List Int) (l : List HistoricalBar)
    (b : HistoricalBar) (hb : b ∈ dedupByTimestamp seen l) :
    b ∈ l ∧ b.barEndTimestamp ∉ seen := by
  induction l generalizing seen with
  | nil => simp [dedupByTimestamp] at hb
  | cons x xs ih =>
    simp only [dedupByTimestamp] at hb
    by_cases hx : x.barEndTimestamp ∈ seen
    · simp only [if_pos hx] at hb
      obtain ⟨h1, h2⟩ := ih seen hb
      exact ⟨List.mem_cons_of_mem _ h1, h2⟩
    · simp only [if_neg hx] at hb
      rcases List.mem_cons.mp hb with rfl | hb
      · exact ⟨List.mem_cons_self _ _, hx⟩
      · obtain ⟨h1, h2⟩ := ih _ hb
        refine ⟨List.mem_cons_of_mem _ h1, fun hc => h2 ?_⟩
        exact List.mem_cons_of_mem _ hc

theorem dedupByTimestamp_pairwise (seen : List Int) (l : List HistoricalBar) :
    (dedupByTimestamp seen l).Pairwise TsNe := by
  induction l generalizing seen with
  | nil => exact List.Pairwise.nil
  | cons x xs ih =>
    simp only [dedupByTimestamp]
    by_cases hx : x.barEndTimestamp ∈ seen
    · simpa [hx] using ih seen
    · simp only [if_neg hx]
      refine List.Pairwise.cons ?_ (ih _)
      intro b hb
      have := (dedupByTimestamp_mem_ts _ _ _ hb).2
      intro hc
      exact this (by simp [← hc])

theorem dedupByTimestamp_sublist (seen : List Int) (l : List HistoricalBar) :
    (dedupByTimestamp seen l).Sublist l := by
  induction l generalizing seen with
  | nil => simp [dedupByTimestamp]
  | cons x xs ih =>
    simp only [dedupByTimestamp]
    by_cases hx : x.barEndTimestamp ∈ seen
    · simp only [if_pos hx]
      exact (ih seen).cons x
    · simp only [if_neg hx]
      exact (ih _).cons₂ x

theorem dedupByTimestamp_eq_self :
    ∀ (seen : List Int) (l : List HistoricalBar), l.Pairwise TsNe →
      (∀ b ∈ l, b.barEndTimestamp ∉ seen) → dedupByTimestamp seen l = l
  | _, [], _, _ => rfl
  | seen, x :: xs, hl, hseen => by
    have hx : x.barEndTimestamp ∉ seen := hseen x (List.mem_cons_self _ _)
    simp only [dedupByTimestamp, if_neg hx]
    congr 1
    refine dedupByTimestamp_eq_self _ _ (List.pairwise_cons.mp hl).2 ?_
    intro b hb
    simp only [List.mem_cons, not_or]
    constructor
    · intro hc
      have hne : TsNe x b := (List.pairwise_cons.mp hl).1 b hb
      exact hne (by simpa using hc.symm)
    · exact hseen b (List.mem_cons_of_mem _ hb)

theorem exchangePass_perm (x : HistoricalBar) (xs : List HistoricalBar) :
    ((exchangePass x xs).1 :: (exchangePass x xs).2).Perm (x :: xs) := by
  induction xs generalizing x with
  | nil => simp [exchangePass]
  | cons y ys ih =>
    simp only [exchangePass]
    by_cases h : x.barEndTimestamp < y.barEndTimestamp
    · simp only [if_pos h]
      exact (List.Perm.swap x _ _).trans ((ih y).cons x)
    · simp only [if_neg h]
      exact ((List.Perm.swap y _ _).trans ((ih x).cons y)).trans (List.Perm.swap x y ys)

theorem exchangePass_dominates (x : HistoricalBar) (xs : List HistoricalBar) :
    TsGe (exchangePass x xs).1 x ∧ ∀ y ∈ (exchangePass x xs).2, TsGe (exchangePass x xs).1 y := by
  induction xs generalizing x with
  | nil => simp [exchangePass, TsGe]
  | cons y ys ih =>
    simp only [exchangePass]
    by_cases h : x.barEndTimestamp < y.barEndTimestamp
    · simp only [if_pos h]
      obtain ⟨hy, hrest⟩ := ih y
      refine ⟨le_trans (le_of_lt h) hy, ?_⟩
      intro z hz
      rcases List.mem_cons.mp hz with rfl | hz
      · exact le_trans (le_of_lt h) hy
      · exact hrest z hz
    · simp only [if_neg h]
      obtain ⟨hx, hrest⟩ := ih x
      refine ⟨hx, ?_⟩
      intro z hz
      rcases List.mem_cons.mp hz with rfl | hz
      · exact le_trans (le_of_not_lt h) hx
      · exact hrest z hz

theorem exchangeSort_perm : ∀ l : List HistoricalBar, (exchangeSort l).Perm l
  | [] => by simp [exchangeSort]
  | x :: xs => by
    simp only [exchangeSort]
    exact ((exchangeSort_perm (exchangePass x xs).2).cons _).trans (exchangePass_perm x xs)
termination_by l => l.length
decreasing_by
  simp only [exchangePass_length, List.length_cons]
  omega

theorem exchangeSort_sorted : ∀ l : List HistoricalBar, (exchangeSort l).Sorted TsGe
  | [] => by simp [exchangeSort]
  | x :: xs => by
    simp only [exchangeSort]
    refine List.Pairwise.cons ?_ (exchangeSort_sorted (exchangePass x xs).2)
    intro z hz
    have hz' : z ∈ (exchangePass x xs).2 :=
      ((exchangeSort_perm (exchangePass x xs).2).mem_iff).mp hz
    exact (exchangePass_dominates x xs).2 z hz'
termination_by l => l.length
decreasing_by
  simp only [exchangePass_length, List.length_cons]
  omega

theorem replaceByTimestamp_eq_none (bar : HistoricalBar) :
    ∀ l : List HistoricalBar, replaceByTimestamp bar l = none ↔
      ∀ b ∈ l, b.barEndTimestamp ≠ bar.barEndTimestamp
  | [] => by simp [replaceByTimestamp]
  | x :: xs => by
    simp only [replaceByTimestamp]
    by_cases h : x.barEndTimestamp = bar.barEndTimestamp
    · simp [h]
    · simp only [if_neg h, Option.map_eq_none', List.mem_cons]
      rw [replaceByTimestamp_eq_none bar xs]
      constructor
      · rintro hall b (rfl | hb)
        · exact h
        · exact hall b hb
      · intro hall b hb
        exact hall b (Or.inr hb)

theorem replaceByTimestamp_eq_some (bar : HistoricalBar) :
    ∀ (l l' : List HistoricalBar), replaceByTimestamp bar l = some l' →
      ∃ l₁ b l₂, l = l₁ ++ b :: l₂ ∧ l' = l₁ ++ bar :: l₂ ∧
        b.barEndTimestamp = bar.barEndTimestamp ∧
        ∀ a ∈ l₁, a.barEndTimestamp ≠ bar.barEndTimestamp
  | [], _, h => by simp [replaceByTimestamp] at h
  | x :: xs, l', h => by
    simp only [replaceByTimestamp] at h
    by_cases hx : x.barEndTimestamp = bar.barEndTimestamp
    · rw [if_pos hx] at h
      exact ⟨[], x, xs, by simp, by simpa using h.symm, hx, by simp⟩
    · rw [if_neg hx] at h
      obtain ⟨m, hm, rfl⟩ := Option.map_eq_some'.mp h
      obtain ⟨l₁, b, l₂, he, he', hb, hl₁⟩ := replaceByTimestamp_eq_some bar xs m hm
      refine ⟨x :: l₁, b, l₂, by simp [he], by simp [he'], hb, ?_⟩
      intro a ha
      rcases List.mem_cons.mp ha with rfl | ha
      · exact hx
      · exact hl₁ a ha

theorem replaceBySequence_eq_some (bar : HistoricalBar) :
    ∀ (l l' : List HistoricalBar), replaceBySequence bar l = some l' →
      ∃ l₁ b l₂, l = l₁ ++ b :: l₂ ∧ l' = l₁ ++ bar :: l₂ ∧
        b.sequence = bar.sequence ∧ bar.sequence ≠ 0
  | [], _, h => by simp [replaceBySequence] at h
  | x :: xs, l', h => by
    simp only [replaceBySequence] at h
    by_cases hx : x.sequence = bar.sequence ∧ bar.sequence ≠ 0
    · rw [if_pos hx] at h
      exact ⟨[], x, xs, by simp, by simpa using h.symm, hx.1, hx.2⟩
    · rw [if_neg hx] at h
      obtain ⟨m, hm, rfl⟩ := Option.map_eq_some'.mp h
      obtain ⟨l₁, b, l₂, he, he', hb, hz⟩ := replaceBySequence_eq_some bar xs m hm
      exact ⟨x :: l₁, b, l₂, by simp [he], by simp [he'], hb, hz⟩

/-- Replacing one entry by another with the same timestamp keeps the
timestamp-uniqueness invariant. -/
theorem pairwise_replace_same_ts {l₁ l₂ : List HistoricalBar} {b bar : HistoricalBar}
    (hp : (l₁ ++ b :: l₂).Pairwise TsNe)
    (hts : b.barEndTimestamp = bar.barEndTimestamp) :
    (l₁ ++ bar :: l₂).Pairwise TsNe := by
  rw [List.pairwise_append] at hp ⊢
  obtain ⟨h1, h2, h3⟩ := hp
  rw [List.pairwise_cons] at h2 ⊢
  refine ⟨h1, ⟨?_, h2.2⟩, ?_⟩
  · intro a ha
    have := h2.1 a ha
    simpa [TsNe, ← hts] using this
  · intro a ha c hc
    rcases List.mem_cons.mp hc with rfl | hc
    · have := h3 a ha b (List.mem_cons_self _ _)
      simpa [TsNe, ← hts] using this
    · exact h3 a ha c (List.mem_cons_of_mem _ hc)

/-- Replacing one entry by another whose timestamp occurs nowhere in the
list also keeps the invariant. -/
theorem pairwise_replace_fresh_ts {l₁ l₂ : List HistoricalBar} {b bar : HistoricalBar}
    (hp : (l₁ ++ b :: l₂).Pairwise TsNe)
    (hfresh : ∀ a ∈ l₁ ++ b :: l₂, a.barEndTimestamp ≠ bar.barEndTimestamp) :
    (l₁ ++ bar :: l₂).Pairwise TsNe := by
  rw [List.pairwise_append] at hp ⊢
  obtain ⟨h1, h2, h3⟩ := hp
  rw [List.pairwise_cons] at h2 ⊢
  refine ⟨h1, ⟨?_, h2.2⟩, ?_⟩
  · intro a ha
    have := hfresh a (List.mem_append_right l₁ (List.mem_cons_of_mem _ ha))
    exact fun hc => this (by simpa [TsNe] using hc.symm)
  · intro a ha c hc
    rcases List.mem_cons.mp hc with rfl | hc
    · exact hfresh a (List.mem_append_left _ ha)
    · exact h3 a ha c (List.mem_cons_of_mem _ hc)

/-- Replacing one entry by another with the same timestamp keeps the
newest-first ordering. -/
theorem sorted_replace_same_ts {l₁ l₂ : List HistoricalBar} {b bar : HistoricalBar}
    (hs : (l₁ ++ b :: l₂).Sorted TsGe)
    (hts : b.barEndTimestamp = bar.barEndTimestamp) :
    (l₁ ++ bar :: l₂).Sorted TsGe := by
  unfold List.Sorted at hs ⊢
  rw [List.pairwise_append] at hs ⊢
  obtain ⟨h1, h2, h3⟩ := hs
  rw [List.pairwise_cons] at h2 ⊢
  refine ⟨h1, ⟨?_, h2.2⟩, ?_⟩
  · intro a ha
    have := h2.1 a ha
    simpa [TsGe, ← hts] using this
  · intro a ha c hc
    rcases List.mem_cons.mp hc with rfl | hc
    · have := h3 a ha b (List.mem_cons_self _ _)
      simpa [TsGe, ← hts] using this
    · exact h3 a ha c (List.mem_cons_of_mem _ hc)

/-! ### Timestamp uniqueness is preserved by every series mutation -/

theorem updateHistoricalBarList_pairwise (l : List HistoricalBar) (bar : HistoricalBar)
    (hp : l.Pairwise TsNe) : (updateHistoricalBarList l bar).Pairwise TsNe := by
  unfold updateHistoricalBarList
  cases hts : replaceByTimestamp bar l with
  | some l' =>
    obtain ⟨l₁, b, l₂, he, he', hb, _⟩ := replaceByTimestamp_eq_some bar l l' hts
    subst he he'
    exact pairwise_replace_same_ts hp hb
  | none =>
    cases hseq : replaceBySequence bar l with
    | some l' =>
      obtain ⟨l₁, b, l₂, he, he', _, _⟩ := replaceBySequence_eq_some bar l l' hseq
      subst he he'
      exact pairwise_replace_fresh_ts hp
        (fun a ha => (replaceByTimestamp_eq_none bar _).mp hts a ha)
    | none =>
      exact (dedupByTimestamp_pairwise [] _).sublist (List.take_sublist _ _)

theorem updateHistoricalSequenceOnLiveBarList_pairwise (l : List HistoricalBar)
    (h : HistoricalBar) (hp : l.Pairwise TsNe) :
    (updateHistoricalSequenceOnLiveBarList l h).Pairwise TsNe := by
  unfold updateHistoricalSequenceOnLiveBarList
  cases hts : replaceByTimestamp h l with
  | some l' =>
    obtain ⟨l₁, b, l₂, he, he', hb, _⟩ := replaceByTimestamp_eq_some h l l' hts
    subst he he'
    have hp' : (l₁ ++ h :: l₂).Pairwise TsNe := pairwise_replace_same_ts hp hb
    have := ((exchangeSort_perm (l₁ ++ h :: l₂)).pairwise_iff
      (fun {_ _} hr => tsNe_symm hr)).mpr hp'
    exact this.sublist (List.take_sublist _ _)
  | none =>
    exact (dedupByTimestamp_pairwise [] _).sublist (List.take_sublist _ _)

/-- Inductive invariant carried over call sequences: every per-key series is
duplicate-free by bar-end timestamp and holds at most 200 entries. -/
def SeriesInv (sm : StateManager) : Prop :=
  ∀ i p, ((sm.historicalBars i p).Pairwise TsNe) ∧
    (sm.historicalBars i p).length ≤ barRingBufferSize

theorem seriesInv_new : SeriesInv NewStateManager := by
  intro i p
  exact ⟨List.Pairwise.nil, by simp [NewStateManager]⟩

theorem updateHistoricalBarList_length (l : List HistoricalBar) (bar : HistoricalBar)
    (hlen : l.length ≤ barRingBufferSize) :
    (updateHistoricalBarList l bar).length ≤ barRingBufferSize := by
  unfold updateHistoricalBarList
  cases hts : replaceByTimestamp bar l with
  | some l' =>
    obtain ⟨l₁, b, l₂, he, he', _, _⟩ := replaceByTimestamp_eq_some bar l l' hts
    subst he he'
    simpa using hlen
  | none =>
    cases hseq : replaceBySequence bar l with
    | some l' =>
      obtain ⟨l₁, b, l₂, he, he', _, _⟩ := replaceBySequence_eq_some bar l l' hseq
      subst he he'
      simpa using hlen
    | none =>
      exact List.length_take_le _ _

theorem updateHistoricalSequenceOnLiveBarList_length (l : List HistoricalBar)
    (h : HistoricalBar) :
    (updateHistoricalSequenceOnLiveBarList l h).length ≤ barRingBufferSize := by
  unfold updateHistoricalSequenceOnLiveBarList
  cases replaceByTimestamp h l with
  | some l' => exact List.length_take_le _ _
  | none => exact List.length_take_le _ _

theorem seriesInv_applyLedgerCall (sm : StateManager) (c : LedgerCall)
    (hinv : SeriesInv sm) : SeriesInv (applyLedgerCall sm c) := by
  cases c with
  | tick t => exact fun i p => hinv i p
  | account info => exact fun i p => hinv i p
  | hist b =>
    intro i p
    simp only [applyLedgerCall, UpdateHistoricalBar]
    by_cases hip : i = b.instrument ∧ p = b.period
    · rw [if_pos hip]
      exact ⟨updateHistoricalBarList_pairwise _ _ (hinv b.instrument b.period).1,
        updateHistoricalBarList_length _ _ (hinv b.instrument b.period).2⟩
    · rw [if_neg hip]
      exact hinv i p
  | live b =>
    intro i p
    simp only [applyLedgerCall, UpdateLiveBar]
    by_cases hip : i = b.instrument ∧ p = b.period
    · rw [if_pos hip]
      exact ⟨updateHistoricalSequenceOnLiveBarList_pairwise _ _
          (hinv b.instrument b.period).1,
        updateHistoricalSequenceOnLiveBarList_length _ _⟩
    · rw [if_neg hip]
      exact hinv i p

theorem seriesInv_runLedgerCalls (calls : List LedgerCall) :
    SeriesInv (runLedgerCalls calls) := by
  unfold runLedgerCalls
  induction calls using List.reverseRecOn with
  | nil => exact seriesInv_new
  | append_singleton cs c ih =>
    rw [List.foldl_append]
    exact seriesInv_applyLedgerCall _ c ih

/-! ### Sorted series are fixed points of the exchange sort; eviction drops the oldest -/

theorem sorted_gt_of_ge_pairwise {l : List HistoricalBar} (hs : l.Sorted TsGe)
    (hp : l.Pairwise TsNe) : l.Sorted TsGt := by
  have := List.Pairwise.and hs hp
  refine this.imp ?_
  rintro a b ⟨hge, hne⟩
  exact lt_of_le_of_ne hge (fun hc => hne (by simpa [TsNe] using hc.symm))

theorem exchangeSort_eq_self {l : List HistoricalBar} (hs : l.Sorted TsGe)
    (hp : l.Pairwise TsNe) : exchangeSort l = l := by
  have hperm := exchangeSort_perm l
  have hp' : (exchangeSort l).Pairwise TsNe :=
    (hperm.pairwise_iff (fun {_ _} hr => tsNe_symm hr)).mpr hp
  exact List.eq_of_perm_of_sorted hperm
    (sorted_gt_of_ge_pairwise (exchangeSort_sorted l) hp')
    (sorted_gt_of_ge_pairwise hs hp)

theorem sorted_dropLast_gt_getLast {s : List HistoricalBar} (hs : s.Sorted TsGt)
    (hne : s ≠ []) :
    ∀ e ∈ s.dropLast, (s.getLast hne).barEndTimestamp < e.barEndTimestamp := by
  intro e he
  have hsplit := List.dropLast_append_getLast hne
  rw [← hsplit] at hs
  unfold List.Sorted at hs
  rw [List.pairwise_append] at hs
  exact hs.2.2 e he _ (List.mem_singleton_self _)

theorem mem_dropLast_of_ne_getLast {s : List HistoricalBar} (hne : s ≠ [])
    {e : HistoricalBar} (hmem : e ∈ s) (hlast : e ≠ s.getLast hne) :
    e ∈ s.dropLast := by
  have hsplit := List.dropLast_append_getLast hne
  rw [← hsplit] at hmem
  rcases List.mem_append.mp hmem with h | h
  · exact h
  · exact absurd (List.mem_singleton.mp h) hlast

theorem getLast_eq_min {s : List HistoricalBar} (hs : s.Sorted TsGt) (hne : s ≠ [])
    {minEntry : HistoricalBar} (hmem : minEntry ∈ s)
    (hmin : ∀ e ∈ s, e ≠ minEntry → minEntry.barEndTimestamp < e.barEndTimestamp) :
    s.getLast hne = minEntry := by
  by_contra hcon
  have hlt : minEntry.barEndTimestamp < (s.getLast hne).barEndTimestamp :=
    hmin _ (List.getLast_mem hne) hcon
  have hdl : minEntry ∈ s.dropLast :=
    mem_dropLast_of_ne_getLast hne hmem (fun hc => hcon hc.symm)
  exact absurd (sorted_dropLast_gt_getLast hs hne minEntry hdl) (by omega)

/-- Oldest-eviction property of a strictly descending series of length
`n + 1` trimmed to `n` entries: exactly the minimum-timestamp entry drops. -/
theorem dropLast_evicts_min {s : List HistoricalBar} (hs : s.Sorted TsGt) (hne : s ≠ [])
    {minEntry : HistoricalBar} (hmem : minEntry ∈ s)
    (hmin : ∀ e ∈ s, e ≠ minEntry → minEntry.barEndTimestamp < e.barEndTimestamp) :
    minEntry ∉ s.dropLast ∧ ∀ e ∈ s, e ≠ minEntry → e ∈ s.dropLast := by
  have hlast := getLast_eq_min hs hne hmem hmin
  constructor
  · intro hdl
    have := sorted_dropLast_gt_getLast hs hne minEntry hdl
    rw [hlast] at this
    omega
  · intro e he hneq
    exact mem_dropLast_of_ne_getLast hne he (fun hc => hneq (hc.trans hlast))

theorem replaceBySequence_eq_none (bar : HistoricalBar) :
    ∀ l : List HistoricalBar, replaceBySequence bar l = none ↔
      ∀ b ∈ l, ¬(b.sequence = bar.sequence ∧ bar.sequence ≠ 0)
  | [] => by simp [replaceBySequence]
  | x :: xs => by
    simp only [replaceBySequence]
    by_cases h : x.sequence = bar.sequence ∧ bar.sequence ≠ 0
    · simp only [if_pos h]
      simp only [List.mem_cons]
      constructor
      · intro hc
        exact absurd hc (by simp)
      · intro hall
        exact absurd h (hall x (Or.inl rfl))
    · simp only [if_neg h, Option.map_eq_none', List.mem_cons]
      rw [replaceBySequence_eq_none bar xs]
      constructor
      · rintro hall b (rfl | hb)
        · exact h
        · exact hall b hb
      · intro hall b hb
        exact hall b (Or.inr hb)

theorem updateHistoricalBarList_evicts_min (old : List HistoricalBar)
    (bar minEntry : HistoricalBar) (hp : old.Pairwise TsNe)
    (hlen : old.length = barRingBufferSize)
    (hfresh : ∀ b ∈ old, b.barEndTimestamp ≠ bar.barEndTimestamp)
    (hseqfree : bar.sequence = 0 ∨ ∀ b ∈ old, b.sequence ≠ bar.sequence)
    (hmem : minEntry ∈ old)
    (hmin : ∀ e ∈ old, e ≠ minEntry → minEntry.barEndTimestamp < e.barEndTimestamp)
    (hbar : minEntry.barEndTimestamp < bar.barEndTimestamp) :
    (updateHistoricalBarList old bar).length = barRingBufferSize ∧
      bar ∈ updateHistoricalBarList old bar ∧
      minEntry ∉ updateHistoricalBarList old bar ∧
      ∀ e ∈ old, e ≠ minEntry → e ∈ updateHistoricalBarList old bar := by
  have hnone1 : replaceByTimestamp bar old = none :=
    (replaceByTimestamp_eq_none bar old).mpr hfresh
  have hnone2 : replaceBySequence bar old = none := by
    refine (replaceBySequence_eq_none bar old).mpr ?_
    rcases hseqfree with hz | hall
    · exact fun b _ hc => hc.2 hz
    · exact fun b hb hc => hall b hb hc.1
  have happ : (old ++ [bar]).Pairwise TsNe := by
    rw [List.pairwise_append]
    refine ⟨hp, List.pairwise_singleton _ _, ?_⟩
    intro a ha b hb
    rw [List.mem_singleton.mp hb]
    exact hfresh a ha
  set s := exchangeSort (old ++ [bar]) with hsdef
  have hsperm : s.Perm (old ++ [bar]) := exchangeSort_perm _
  have hspair : s.Pairwise TsNe :=
    (hsperm.pairwise_iff (fun {_ _} hr => tsNe_symm hr)).mpr happ
  have hsgt : s.Sorted TsGt := sorted_gt_of_ge_pairwise (exchangeSort_sorted _) hspair
  have hslen : s.length = barRingBufferSize + 1 := by
    rw [hsperm.length_eq]
    simp [hlen]
  have hne : s ≠ [] := by
    intro hc
    rw [hc] at hslen
    simp [barRingBufferSize] at hslen
  have hres : updateHistoricalBarList old bar = s.dropLast := by
    unfold updateHistoricalBarList
    rw [hnone1, hnone2, ← hsdef,
      dedupByTimestamp_eq_self [] s hspair (by simp), List.dropLast_eq_take, hslen]
    simp
  have hmems : minEntry ∈ s := hsperm.mem_iff.mpr (List.mem_append_left _ hmem)
  have hminS : ∀ e ∈ s, e ≠ minEntry → minEntry.barEndTimestamp < e.barEndTimestamp := by
    intro e he hneq
    rcases List.mem_append.mp (hsperm.mem_iff.mp he) with h | h
    · exact hmin e h hneq
    · rw [List.mem_singleton.mp h]
      exact hbar
  have hev := dropLast_evicts_min hsgt hne hmems hminS
  have hbarmem : bar ∈ s := hsperm.mem_iff.mpr (List.mem_append_right _ (by simp))
  have hbarne : bar ≠ minEntry := by
    intro hc
    rw [hc] at hbar
    omega
  refine ⟨?_, ?_, ?_, ?_⟩
  · rw [hres, List.length_dropLast, hslen]
    simp [barRingBufferSize]
  · rw [hres]
    exact hev.2 bar hbarmem hbarne
  · rw [hres]
    exact hev.1
  · intro e he hneq
    rw [hres]
    exact hev.2 e (hsperm.mem_iff.mpr (List.mem_append_left _ he)) hneq

theorem updateHistoricalSequenceOnLiveBarList_evicts_min (old : List HistoricalBar)
    (conv minEntry : HistoricalBar) (hp : old.Pairwise TsNe) (hsorted : old.Sorted TsGe)
    (hlen : old.length = barRingBufferSize)
    (hfresh : ∀ b ∈ old, b.barEndTimestamp ≠ conv.barEndTimestamp)
    (hmem : minEntry ∈ old)
    (hmin : ∀ e ∈ old, e ≠ minEntry → minEntry.barEndTimestamp < e.barEndTimestamp)
    (hconv : minEntry.barEndTimestamp < conv.barEndTimestamp) :
    (updateHistoricalSequenceOnLiveBarList old conv).length = barRingBufferSize ∧
      conv ∈ updateHistoricalSequenceOnLiveBarList old conv ∧
      minEntry ∉ updateHistoricalSequenceOnLiveBarList old conv ∧
      ∀ e ∈ old, e ≠ minEntry → e ∈ updateHistoricalSequenceOnLiveBarList old conv := by
  have hnone : replaceByTimestamp conv old = none :=
    (replaceByTimestamp_eq_none conv old).mpr hfresh
  have hcons : (conv :: old).Pairwise TsNe := by
    refine List.Pairwise.cons ?_ hp
    intro b hb hc
    exact hfresh b hb (by simpa [TsNe] using hc.symm)
  have holdgt : old.Sorted TsGt := sorted_gt_of_ge_pairwise hsorted hp
  have holdne : old ≠ [] := by
    intro hc
    rw [hc] at hlen
    simp [barRingBufferSize] at hlen
  have hres : updateHistoricalSequenceOnLiveBarList old conv = conv :: old.dropLast := by
    unfold updateHistoricalSequenceOnLiveBarList
    rw [hnone, dedupByTimestamp_eq_self [] _ hcons (by simp)]
    show (conv :: old).take barRingBufferSize = conv :: old.dropLast
    rw [List.dropLast_eq_take, hlen]
    rfl
  have hev := dropLast_evicts_min holdgt holdne hmem hmin
  have hminneq : minEntry ≠ conv := by
    intro hc
    rw [hc] at hconv
    omega
  refine ⟨?_, ?_, ?_, ?_⟩
  · rw [hres]
    simp [List.length_dropLast, hlen, barRingBufferSize]
  · rw [hres]
    exact List.mem_cons_self _ _
  · rw [hres]
    intro hc
    rcases List.mem_cons.mp hc with h | h
    · exact hminneq h
    · exact hev.1 h
  · intro e he hneq
    rw [hres]
    exact List.mem_cons_of_mem _ (hev.2 e he hneq)

instance : DecidableRel TsNe :=
  fun a b => (inferInstance : Decidable (a.barEndTimestamp ≠ b.barEndTimestamp))

instance : DecidableRel TsGe :=
  fun a b => (inferInstance : Decidable (b.barEndTimestamp ≤ a.barEndTimestamp))

instance : DecidableRel TsGt :=
  fun a b => (inferInstance : Decidable (b.barEndTimestamp < a.barEndTimestamp))

/-- Merge shape of `updateHistoricalSequenceOnLiveBar` when no entry matches
the converted bar's timestamp: the bar is prepended and the series trimmed;
on a duplicate-free series the dedup pass removes nothing. -/
theorem updateHistoricalSequenceOnLiveBarList_prepend (old : List HistoricalBar)
    (conv : HistoricalBar) (hp : old.Pairwise TsNe)
    (hnone : ∀ e ∈ old, e.barEndTimestamp ≠ conv.barEndTimestamp) :
    updateHistoricalSequenceOnLiveBarList old conv =
      conv :: old.take (barRingBufferSize - 1) := by
  unfold updateHistoricalSequenceOnLiveBarList
  rw [(replaceByTimestamp_eq_none conv old).mpr hnone]
  have hcons : (conv :: old).Pairwise TsNe := by
    refine List.Pairwise.cons ?_ hp
    intro e he hc
    exact hnone e he (by simpa [TsNe] using hc.symm)
  rw [dedupByTimestamp_eq_self [] _ hcons (by simp)]
  rfl

/-- The prepend shape below capacity: nothing is trimmed. -/
theorem updateHistoricalSequenceOnLiveBarList_prepend_small (old : List HistoricalBar)
    (conv : HistoricalBar) (hp : old.Pairwise TsNe)
    (hnone : ∀ e ∈ old, e.barEndTimestamp ≠ conv.barEndTimestamp)
    (hlen : old.length ≤ barRingBufferSize - 1) :
    updateHistoricalSequenceOnLiveBarList old conv = conv :: old := by
  rw [updateHistoricalSequenceOnLiveBarList_prepend old conv hp hnone,
    List.take_of_length_le hlen]

/-- Merge shape of `updateHistoricalSequenceOnLiveBar` when an entry matches
the converted bar's timestamp and the series is canonical (duplicate-free,
newest-first, within capacity): in-place replacement of the first match. -/
theorem updateHistoricalSequenceOnLiveBarList_replace (old : List HistoricalBar)
    (conv : HistoricalBar) (hp : old.Pairwise TsNe) (hsorted : old.Sorted TsGe)
    (hlen : old.length ≤ barRingBufferSize)
    (hmatch : ∃ e ∈ old, e.barEndTimestamp = conv.barEndTimestamp) :
    ∃ l₁ b l₂, old = l₁ ++ b :: l₂ ∧ b.barEndTimestamp = conv.barEndTimestamp ∧
      (∀ a ∈ l₁, a.barEndTimestamp ≠ conv.barEndTimestamp) ∧
      updateHistoricalSequenceOnLiveBarList old conv = l₁ ++ conv :: l₂ := by
  have hne : replaceByTimestamp conv old ≠ none := by
    intro hc
    obtain ⟨e, he, hts⟩ := hmatch
    exact (replaceByTimestamp_eq_none conv old).mp hc e he hts
  cases hrep : replaceByTimestamp conv old with
  | none => exact absurd hrep hne
  | some l' =>
    obtain ⟨l₁, b, l₂, hsp, hsp', hts, hl₁⟩ := replaceByTimestamp_eq_some conv old l' hrep
    refine ⟨l₁, b, l₂, hsp, hts, hl₁, ?_⟩
    unfold updateHistoricalSequenceOnLiveBarList
    rw [hrep]
    subst hsp hsp'
    have hp' := pairwise_replace_same_ts hp hts
    have hs' := sorted_replace_same_ts hsorted hts
    show (exchangeSort (l₁ ++ conv :: l₂)).take barRingBufferSize = l₁ ++ conv :: l₂
    rw [exchangeSort_eq_self hs' hp']
    refine List.take_of_length_le ?_
    simp only [List.length_append, List.length_cons] at hlen ⊢
    exact hlen

/-- Sample historical bar for concrete witnesses; only the timestamp and
sequence vary, prices are fixed. -/
def sampleBar (ts seq : Int) : HistoricalBar where
  producedAt := 0
  barStartTimestamp := ts - 60000
  barEndTimestamp := ts
  pairID := 1
  instrument := "EURUSD"
  period := "ONE_MIN"
  bid := ⟨1, 1, 1, 1, 1⟩
  ask := ⟨1, 1, 1, 1, 1⟩
  bidVwap := ⟨none, none⟩
  askVwap := ⟨none, none⟩
  bidAtr := 0
  askAtr := 0
  bidObv := 0
  askObv := 0
  bidDemas := ⟨0, 0, 0, 0⟩
  askDemas := ⟨0, 0, 0, 0⟩
  bidMacd := ⟨0, 0, 0⟩
  askMacd := ⟨0, 0, 0⟩
  bidRsi := ⟨0, 0⟩
  askRsi := ⟨0, 0⟩
  bidStoch := ⟨0, 0⟩
  askStoch := ⟨0, 0⟩
  bidCci := 0
  askCci := 0
  bidMfi := 0
  askMfi := 0
  bidBollinger := ⟨none, none, none⟩
  askBollinger := ⟨none, none, none⟩
  bidKeltner := ⟨0, 0, 0⟩
  askKeltner := ⟨0, 0, 0⟩
  bidDonchian := ⟨none, none, none⟩
  askDonchian := ⟨none, none, none⟩
  bidSupertrend := ⟨0, 0⟩
  askSupertrend := ⟨0, 0⟩
  sequence := seq

/-- Sample live bar for concrete witnesses. -/
def sampleLive (ts : Int) : Bar where
  producedAt := 0
  barStartTimestamp := ts - 60000
  barEndTimestamp := ts
  pairID := 1
  instrument := "EURUSD"
  period := "ONE_MIN"
  bid := ⟨1, 1, 1, 1, 1⟩
  ask := ⟨1, 1, 1, 1, 1⟩
  bidVwap := ⟨none, none⟩
  askVwap := ⟨none, none⟩
  bidEmas := ⟨none, none, none, none⟩
  askEmas := ⟨none, none, none, none⟩
  bidDonchian := ⟨none, none, none⟩
  askDonchian := ⟨none, none, none⟩
  bidBollinger := ⟨none, none, none⟩
  askBollinger := ⟨none, none, none⟩

/-- Abbreviation for the historical form of a sample live bar. -/
def sampleConv (ts : Int) : HistoricalBar :=
  liveBarToHistoricalBar (sampleLive ts)

/-- Inserting into an empty series stores exactly the incoming bar. -/
theorem updateHistoricalBarList_nil (bar : HistoricalBar) :
    updateHistoricalBarList [] bar = [bar] := by
  unfold updateHistoricalBarList
  show (dedupByTimestamp [] (exchangeSort ([] ++ [bar]))).take barRingBufferSize = [bar]
  rw [List.nil_append]
  simp [exchangeSort, exchangePass, dedupByTimestamp, barRingBufferSize]

theorem getElem_append_cons_ne {α : Type} (l₁ l₂ : List α) (x y : α) (j : Nat)
    (hj : j ≠ l₁.length) : (l₁ ++ x :: l₂)[j]? = (l₁ ++ y :: l₂)[j]? := by
  rw [List.getElem?_append, List.getElem?_append]
  by_cases hlt : j < l₁.length
  · simp [hlt]
  · simp only [if_neg hlt]
    have hrw : j - l₁.length = (j - l₁.length - 1) + 1 := by omega
    rw [hrw]
    simp

theorem getElem_append_cons_self {α : Type} (l₁ l₂ : List α) (x : α) :
    (l₁ ++ x :: l₂)[l₁.length]? = some x := by
  rw [List.getElem?_append, if_neg (by omega)]
  simp

/-! ### Claim theorems -/

/-- C6: calling `UpdateHistoricalBar` with a bar whose `BarEndTimestamp` equals
that of an existing entry replaces the first such entry's content in place:
the series keeps its length, the replaced slot holds the new bar at its old
position, every other position is unchanged, and every other (instrument,
period) slot as well as ticks, live bars and account info are untouched. -/
theorem C6_in_place_replacement (sm : StateManager) (bar : HistoricalBar)
    (hmatch : ∃ b ∈ sm.historicalBars bar.instrument bar.period,
      b.barEndTimestamp = bar.barEndTimestamp) :
    ∃ l₁ b l₂,
      sm.historicalBars bar.instrument bar.period = l₁ ++ b :: l₂ ∧
      b.barEndTimestamp = bar.barEndTimestamp ∧
      (∀ a ∈ l₁, a.barEndTimestamp ≠ bar.barEndTimestamp) ∧
      (UpdateHistoricalBar sm bar).historicalBars bar.instrument bar.period
        = l₁ ++ bar :: l₂ ∧
      ((UpdateHistoricalBar sm bar).historicalBars bar.instrument bar.period).length
        = (sm.historicalBars bar.instrument bar.period).length ∧
      ((UpdateHistoricalBar sm bar).historicalBars bar.instrument bar.period)[l₁.length]?
        = some bar ∧
      (∀ j : Nat, j ≠ l₁.length →
        ((UpdateHistoricalBar sm bar).historicalBars bar.instrument bar.period)[j]?
          = (sm.historicalBars bar.instrument bar.period)[j]?) ∧
      (∀ i p, ¬(i = bar.instrument ∧ p = bar.period) →
        (UpdateHistoricalBar sm bar).historicalBars i p = sm.historicalBars i p) ∧
      (UpdateHistoricalBar sm bar).ticks = sm.ticks ∧
      (UpdateHistoricalBar sm bar).bars = sm.bars ∧
      (UpdateHistoricalBar sm bar).accountInfo = sm.accountInfo := by
  set old := sm.historicalBars bar.instrument bar.period with hold
  have hne : replaceByTimestamp bar old ≠ none := by
    intro hc
    obtain ⟨e, he, hts⟩ := hmatch
    exact (replaceByTimestamp_eq_none bar old).mp hc e he hts
  cases hrep : replaceByTimestamp bar old with
  | none => exact absurd hrep hne
  | some l' =>
    obtain ⟨l₁, b, l₂, hsp, hsp', hts, hl₁⟩ := replaceByTimestamp_eq_some bar old l' hrep
    have hat : (UpdateHistoricalBar sm bar).historicalBars bar.instrument bar.period = l' := by
      show (if bar.instrument = bar.instrument ∧ bar.period = bar.period then
        updateHistoricalBarList old bar else _) = l'
      rw [if_pos ⟨rfl, rfl⟩]
      unfold updateHistoricalBarList
      rw [hrep]
    refine ⟨l₁, b, l₂, hsp, hts, hl₁, by rw [hat, hsp'], ?_, ?_, ?_, ?_, rfl, rfl, rfl⟩
    · rw [hat, hsp', hsp]
      simp
    · rw [hat, hsp']
      exact getElem_append_cons_self l₁ l₂ bar
    · intro j hj
      rw [hat, hsp', hsp]
      exact getElem_append_cons_ne l₁ l₂ bar b j hj
    · intro i p hip
      show (if i = bar.instrument ∧ p = bar.period then _ else sm.historicalBars i p)
        = sm.historicalBars i p
      rw [if_neg hip]

/-- C6 witness: a two-entry series with a matching timestamp at the second
slot is replaced in place. -/
theorem C6_witness :
    (∃ b ∈ (StateManager.mk (fun _ => []) (fun _ _ => [])
        (fun i p => if i = "EURUSD" ∧ p = "ONE_MIN" then
          [sampleBar 200 1, sampleBar 100 2] else []) AccountInfo.zero).historicalBars
        (sampleBar 100 9).instrument (sampleBar 100 9).period,
      b.barEndTimestamp = (sampleBar 100 9).barEndTimestamp) ∧
    ∃ l₁ b l₂, ((StateManager.mk (fun _ => []) (fun _ _ => [])
        (fun i p => if i = "EURUSD" ∧ p = "ONE_MIN" then
          [sampleBar 200 1, sampleBar 100 2] else []) AccountInfo.zero).historicalBars
        (sampleBar 100 9).instrument (sampleBar 100 9).period = l₁ ++ b :: l₂) ∧
      b.barEndTimestamp = (sampleBar 100 9).barEndTimestamp ∧
      (∀ a ∈ l₁, a.barEndTimestamp ≠ (sampleBar 100 9).barEndTimestamp) ∧
      (UpdateHistoricalBar (StateManager.mk (fun _ => []) (fun _ _ => [])
        (fun i p => if i = "EURUSD" ∧ p = "ONE_MIN" then
          [sampleBar 200 1, sampleBar 100 2] else []) AccountInfo.zero)
          (sampleBar 100 9)).historicalBars (sampleBar 100 9).instrument
          (sampleBar 100 9).period = l₁ ++ sampleBar 100 9 :: l₂ := by
  have h := C6_in_place_replacement (StateManager.mk (fun _ => []) (fun _ _ => [])
    (fun i p => if i = "EURUSD" ∧ p = "ONE_MIN" then
      [sampleBar 200 1, sampleBar 100 2] else []) AccountInfo.zero) (sampleBar 100 9)
    (by exact ⟨sampleBar 100 2, by decide, by decide⟩)
  obtain ⟨l₁, b, l₂, h1, h2, h3, h4, _⟩ := h
  exact ⟨⟨sampleBar 100 2, by decide, by decide⟩, l₁, b, l₂, h1, h2, h3, h4⟩

/-- C7: a start command for a key that already has a run leaves the registry
entirely unchanged - in particular exactly the original run config (with its
run identifier) stays registered for that key. -/
theorem C7_start_is_noop_when_running (runs : RunMap) (instrument period strategyKey : String)
    (qty atrMult : ℚ) (runID : String) (cfg₀ : RunConfig)
    (hrun : runs (engineKey instrument period) = some cfg₀) :
    StartStrategyWithParams runs instrument period strategyKey qty atrMult runID = runs ∧
    StartStrategyWithParams runs instrument period strategyKey qty atrMult runID
      (engineKey instrument period) = some cfg₀ := by
  have h1 : StartStrategyWithParams runs instrument period strategyKey qty atrMult runID
      = runs := by
    simp only [StartStrategyWithParams, hrun]
  refine ⟨h1, ?_⟩
  rw [h1]
  exact hrun

/-- C7 witness: starting on a key with a registered run changes nothing. -/
theorem C7_witness :
    (fun k => if k = engineKey "EURUSD" "ONE_MIN" then
        some (RunConfig.mk "EURUSD" "ONE_MIN" "BREAKOUT_DC" "run1" 1 2 true) else none)
      (engineKey "EURUSD" "ONE_MIN")
      = some (RunConfig.mk "EURUSD" "ONE_MIN" "BREAKOUT_DC" "run1" 1 2 true) ∧
    StartStrategyWithParams
      (fun k => if k = engineKey "EURUSD" "ONE_MIN" then
        some (RunConfig.mk "EURUSD" "ONE_MIN" "BREAKOUT_DC" "run1" 1 2 true) else none)
      "EURUSD" "ONE_MIN" "BREAKOUT_DC" 5 3 "run2"
      = (fun k => if k = engineKey "EURUSD" "ONE_MIN" then
        some (RunConfig.mk "EURUSD" "ONE_MIN" "BREAKOUT_DC" "run1" 1 2 true) else none) := by
  refine ⟨by decide, ?_⟩
  exact (C7_start_is_noop_when_running _ "EURUSD" "ONE_MIN" "BREAKOUT_DC" 5 3 "run2"
    (RunConfig.mk "EURUSD" "ONE_MIN" "BREAKOUT_DC" "run1" 1 2 true) (by decide)).1

/-- C10: a start command on a free key always creates a run whose quantity
and ATR multiplier are the guardrail-clamped arguments, hence satisfy
0 < qty <= 100 and 0 < atrMult <= 20; no start command fails on
out-of-range numbers. -/
theorem C10_guardrail_clamping (runs : RunMap) (instrument period strategyKey : String)
    (qty atrMult : ℚ) (runID : String)
    (hfree : runs (engineKey instrument period) = none) :
    ∃ cfg : RunConfig,
      StartStrategyWithParams runs instrument period strategyKey qty atrMult runID
        (engineKey instrument period) = some cfg ∧
      cfg.instrument = instrument ∧ cfg.period = period ∧
      cfg.strategyKey = strategyKey ∧ cfg.runID = runID ∧ cfg.running = true ∧
      0 < cfg.qty ∧ cfg.qty ≤ 100 ∧ 0 < cfg.atrMult ∧ cfg.atrMult ≤ 20 ∧
      (qty ≤ 0 → cfg.qty = 1 / 10) ∧
      (qty > 100 → cfg.qty = 100) ∧
      (0 < qty → qty ≤ 100 → cfg.qty = qty) ∧
      (atrMult ≤ 0 → cfg.atrMult = 1) ∧
      (atrMult > 20 → cfg.atrMult = 20) ∧
      (0 < atrMult → atrMult ≤ 20 → cfg.atrMult = atrMult) := by
  refine ⟨RunConfig.mk instrument period strategyKey runID
    (if (if qty ≤ 0 then (1 : ℚ) / 10 else qty) > 100 then 100
      else if qty ≤ 0 then (1 : ℚ) / 10 else qty)
    (if (if atrMult ≤ 0 then (1 : ℚ) else atrMult) > 20 then 20
      else if atrMult ≤ 0 then (1 : ℚ) else atrMult) true,
    ?_, rfl, rfl, rfl, rfl, rfl, ?_, ?_, ?_, ?_, ?_, ?_, ?_, ?_, ?_, ?_⟩
  · simp [StartStrategyWithParams, hfree]
  · dsimp only
    split_ifs
    all_goals try push_neg at *
    all_goals first | rfl | linarith
  · dsimp only
    split_ifs
    all_goals try push_neg at *
    all_goals first | rfl | linarith
  · dsimp only
    split_ifs
    all_goals try push_neg at *
    all_goals first | rfl | linarith
  · dsimp only
    split_ifs
    all_goals try push_neg at *
    all_goals first | rfl | linarith
  · intro h1
    dsimp only
    split_ifs
    all_goals try push_neg at *
    all_goals first | rfl | linarith
  · intro h2
    dsimp only
    split_ifs
    all_goals try push_neg at *
    all_goals first | rfl | linarith
  · intro h1 h2
    dsimp only
    split_ifs
    all_goals try push_neg at *
    all_goals first | rfl | linarith
  · intro h1
    dsimp only
    split_ifs
    all_goals try push_neg at *
    all_goals first | rfl | linarith
  · intro h2
    dsimp only
    split_ifs
    all_goals try push_neg at *
    all_goals first | rfl | linarith
  · intro h1 h2
    dsimp only
    split_ifs
    all_goals try push_neg at *
    all_goals first | rfl | linarith

/-- C10 witness: an out-of-range start (qty = -5, atrMult = 50) creates a run
clamped to qty = 0.10 and atrMult = 20. -/
theorem C10_witness :
    ((fun _ => none) : RunMap) (engineKey "EURUSD" "ONE_MIN") = none ∧
    ∃ cfg : RunConfig,
      StartStrategyWithParams (fun _ => none) "EURUSD" "ONE_MIN" "BREAKOUT_DC"
        (-5) 50 "run1" (engineKey "EURUSD" "ONE_MIN") = some cfg ∧
      0 < cfg.qty ∧ cfg.qty ≤ 100 ∧ 0 < cfg.atrMult ∧ cfg.atrMult ≤ 20 ∧
      cfg.qty = 1 / 10 ∧ cfg.atrMult = 20 := by
  have h := C10_guardrail_clamping (fun _ => none) "EURUSD" "ONE_MIN" "BREAKOUT_DC"
    (-5) 50 "run1" rfl
  obtain ⟨cfg, h1, _, _, _, _, _, h7, h8, h9, h10, h11, _, _, _, h15, _⟩ := h
  exact ⟨rfl, cfg, h1, h7, h8, h9, h10, h11 (by norm_num), h15 (by norm_num)⟩

/-- C4 counterexample: the polling loop keys re-evaluation on the newest
bar's `Sequence` alone.  After evaluating a bar with Sequence 1, a new,
different newest bar that also carries Sequence 1 (as every live-converted
bar does) is not evaluated, although the claim says a changed newest bar is
always evaluated. -/
theorem C4_counterexample :
    (loopStep [sampleBar 100 1] (-1)).2 = true ∧
    sampleBar 200 1 ≠ sampleBar 100 1 ∧
    (loopStep [sampleBar 200 1, sampleBar 100 1] (loopStep [sampleBar 100 1] (-1)).1).2
      = false := by
  refine ⟨by decide, by decide, by decide⟩

/-- C4 as amended: in each polling iteration the decision function is invoked
iff the series is non-empty and the newest bar's `Sequence` differs from the
remembered `lastSeq`; in particular an unchanged newest bar is never
re-evaluated (at-most-once per closed bar), but a changed newest bar with an
unchanged `Sequence` is skipped as well. -/
theorem C4_amended_sequence_gate (bars : List HistoricalBar) (lastSeq : Int)
    (latest : HistoricalBar) (rest rest₂ : List HistoricalBar)
    (hinvoked : (loopStep (latest :: rest) lastSeq).2 = true) :
    ((loopStep bars lastSeq).2 = true ↔
      ∃ l rs, bars = l :: rs ∧ l.sequence ≠ lastSeq) ∧
    (loopStep (latest :: rest₂) (loopStep (latest :: rest) lastSeq).1).2 = false := by
  constructor
  · cases bars with
    | nil => simp [loopStep]
    | cons l rs =>
      simp only [loopStep]
      by_cases h : l.sequence = lastSeq
      · simp only [if_pos h]
        constructor
        · intro hc
          exact absurd hc (by simp)
        · rintro ⟨l', rs', heq, hne⟩
          cases heq
          exact absurd h hne
      · simp only [if_neg h]
        constructor
        · intro _
          exact ⟨l, rs, rfl, h⟩
        · intro _
          first | rfl | trivial
  · simp only [loopStep] at hinvoked ⊢
    by_cases h : latest.sequence = lastSeq
    · rw [if_pos h] at hinvoked
      exact absurd hinvoked (by simp)
    · rw [if_neg h] at hinvoked ⊢
      simp

/-- C4 witness: with an invoked first iteration on a singleton series, the
gate fires exactly on a changed sequence and skips the unchanged newest bar. -/
theorem C4_witness :
    (loopStep [sampleBar 100 1] (-1)).2 = true ∧
    ((loopStep [sampleBar 300 2] (-1)).2 = true ↔
      ∃ l rs, ([sampleBar 300 2] : List HistoricalBar) = l :: rs ∧ l.sequence ≠ -1) ∧
    (loopStep [sampleBar 100 1] (loopStep [sampleBar 100 1] (-1)).1).2 = false := by
  have h := C4_amended_sequence_gate [sampleBar 300 2] (-1) (sampleBar 100 1) [] []
    (by decide)
  exact ⟨by decide, h.1, h.2⟩

/-- Stale historical bar used in the C2 counterexample: produced at time 0,
processed at wall-clock 10000 ms, far beyond the 3000 ms threshold. -/
def staleHist : HistoricalBar := sampleBar 60000 5

/-- C2 counterexample: `processHistoricalBar` has no staleness filter.  A
parse-able historical bar whose production timestamp is 10 s old is still
applied to the store, so a stale historical bar does reach
`UpdateHistoricalBar`, contradicting the claim. -/
theorem C2_counterexample :
    isStale 10000 staleHist.producedAt = true ∧
    (processHistoricalBar NewStateManager (some staleHist) 10000).2
      = MsgOutcome.ackedApplied ∧
    (processHistoricalBar NewStateManager (some staleHist) 10000).1.historicalBars
      "EURUSD" "ONE_MIN" = [staleHist] := by
  refine ⟨by decide, rfl, ?_⟩
  show (if "EURUSD" = staleHist.instrument ∧ "ONE_MIN" = staleHist.period then
      updateHistoricalBarList (NewStateManager.historicalBars staleHist.instrument
        staleHist.period) staleHist
    else NewStateManager.historicalBars "EURUSD" "ONE_MIN") = [staleHist]
  rw [if_pos ⟨rfl, rfl⟩]
  exact updateHistoricalBarList_nil staleHist

/-- C2 as amended: ticks, live bars and account snapshots that parse but are
stale (production timestamp more than 3 s behind wall clock) are acked and
discarded without any store mutation; historical bars, however, are applied
unconditionally - the staleness filter does not exist on that path. -/
theorem C2_amended_staleness_filter (sm : StateManager) (now : Int) :
    (∀ t : Tick, isStale now t.producedAt = true →
      processTick sm (some t) now = (sm, MsgOutcome.ackedDiscarded)) ∧
    (∀ b : Bar, isStale now b.producedAt = true →
      processBar sm (some b) now = (sm, MsgOutcome.ackedDiscarded)) ∧
    (∀ a : AccountInfo, isStale now a.producedAt = true →
      processAccountInfo sm (some a) now = (sm, MsgOutcome.ackedDiscarded)) ∧
    (∀ hb : HistoricalBar,
      processHistoricalBar sm (some hb) now = (UpdateHistoricalBar sm hb,
        MsgOutcome.ackedApplied)) := by
  refine ⟨?_, ?_, ?_, fun hb => rfl⟩
  · intro t ht
    simp [processTick, ht]
  · intro b hb
    simp [processBar, hb]
  · intro a ha
    simp [processAccountInfo, ha]

/-- C2 witness: a stale tick is discarded without mutation while a stale
historical bar is applied. -/
theorem C2_witness :
    isStale 10000 (0 : Int) = true ∧
    processTick NewStateManager
      (some (Tick.mk 0 0 1 "EURUSD" 1 1 1 1)) 10000
      = (NewStateManager, MsgOutcome.ackedDiscarded) ∧
    processHistoricalBar NewStateManager (some staleHist) 10000
      = (UpdateHistoricalBar NewStateManager staleHist, MsgOutcome.ackedApplied) := by
  have h := C2_amended_staleness_filter NewStateManager 10000
  exact ⟨by decide, h.1 (Tick.mk 0 0 1 "EURUSD" 1 1 1 1) (by decide), h.2.2.2 staleHist⟩

/-- C8: with atrMult = 2 on a non-JPY instrument (pip 0.0001) and an
available ATR of 0.0010 on the newest bar, the protective distance is
slPips = 2 * (0.0010 / 0.0001) = 20 pips, and the Buy order carries stop
loss at mid - 20 pips and take profit at mid + 20 pips (mirrored for Sell).
At these inputs the Go float64 arithmetic is exact, so the rational model
agrees with the source. -/
theorem C8_atr_order_distances (latest : HistoricalBar)
    (hatr : availableAtr latest = 1 / 1000) :
    getPipSize "EURUSD" = 1 / 10000 ∧
    computeSlPips 2 latest (getPipSize "EURUSD") = 20 ∧
    orderPrices 2 "EURUSD" latest Signal.signalBuy =
      ((latest.bid.c + latest.ask.c) / 2,
        (latest.bid.c + latest.ask.c) / 2 - 20 * (1 / 10000),
        (latest.bid.c + latest.ask.c) / 2 + 20 * (1 / 10000)) ∧
    orderPrices 2 "EURUSD" latest Signal.signalSell =
      ((latest.bid.c + latest.ask.c) / 2,
        (latest.bid.c + latest.ask.c) / 2 + 20 * (1 / 10000),
        (latest.bid.c + latest.ask.c) / 2 - 20 * (1 / 10000)) := by
  have hpip : getPipSize "EURUSD" = 1 / 10000 := by
    unfold getPipSize
    rw [if_neg (by decide)]
  have hsl : computeSlPips 2 latest (getPipSize "EURUSD") = 20 := by
    rw [hpip]
    unfold computeSlPips
    rw [hatr, if_pos (by norm_num)]
    norm_num
  refine ⟨hpip, hsl, ?_, ?_⟩
  · simp only [orderPrices]
    rw [hsl, hpip]
  · simp only [orderPrices]
    rw [hsl, hpip]

/-- Concrete bar for the C8 witness: BidAtr 0.0010, bid close 1, ask close 2. -/
def c8Bar : HistoricalBar :=
  { sampleBar 100 1 with
      bidAtr := 1 / 1000
      bid := ⟨1, 1, 1, 1, 1⟩
      ask := ⟨2, 2, 2, 2, 2⟩ }

/-- C8 witness: the concrete bar yields slPips = 20 and stop/take prices 20
pips around the mid price 1.5. -/
theorem C8_witness :
    availableAtr c8Bar = 1 / 1000 ∧
    computeSlPips 2 c8Bar (getPipSize "EURUSD") = 20 ∧
    orderPrices 2 "EURUSD" c8Bar Signal.signalBuy =
      ((c8Bar.bid.c + c8Bar.ask.c) / 2,
        (c8Bar.bid.c + c8Bar.ask.c) / 2 - 20 * (1 / 10000),
        (c8Bar.bid.c + c8Bar.ask.c) / 2 + 20 * (1 / 10000)) := by
  have hatr : availableAtr c8Bar = 1 / 1000 := by
    have hb : ¬ (c8Bar.bidAtr ≤ 0) := by
      show ¬ ((1 : ℚ) / 1000 ≤ 0)
      norm_num
    unfold availableAtr
    rw [if_neg hb]
    rfl
  have h := C8_atr_order_distances c8Bar hatr
  exact ⟨hatr, h.2.1, h.2.2.1⟩

/-- C9: converting a live bar to the historical format zeroes every rich
indicator the live feed does not carry (ATR, OBV, DEMAs, MACD, RSI,
Stochastic, CCI, MFI, Keltner, Supertrend; both VWAPs become nil) and sets
Sequence to 1; consequently, in any protective-distance computation the
converted bar falls back to the fixed default of 10 pips, and merging such
a bar over an existing same-timestamp entry with positive ATR removes that
entry: the only entry left at that timestamp is the zeroed conversion. -/
theorem C9_live_conversion_zeroes_indicators (liveBar : Bar) (old : List HistoricalBar)
    (e : HistoricalBar) (hp : old.Pairwise TsNe) (hlen : old.length ≤ barRingBufferSize)
    (he : e ∈ old) (hts : e.barEndTimestamp = liveBar.barEndTimestamp)
    (hatr : 0 < e.bidAtr) :
    (liveBarToHistoricalBar liveBar).bidAtr = 0 ∧
    (liveBarToHistoricalBar liveBar).askAtr = 0 ∧
    (liveBarToHistoricalBar liveBar).bidObv = 0 ∧
    (liveBarToHistoricalBar liveBar).askObv = 0 ∧
    (liveBarToHistoricalBar liveBar).bidDemas = ⟨0, 0, 0, 0⟩ ∧
    (liveBarToHistoricalBar liveBar).askDemas = ⟨0, 0, 0, 0⟩ ∧
    (liveBarToHistoricalBar liveBar).bidMacd = ⟨0, 0, 0⟩ ∧
    (liveBarToHistoricalBar liveBar).askMacd = ⟨0, 0, 0⟩ ∧
    (liveBarToHistoricalBar liveBar).bidRsi = ⟨0, 0⟩ ∧
    (liveBarToHistoricalBar liveBar).askRsi = ⟨0, 0⟩ ∧
    (liveBarToHistoricalBar liveBar).bidStoch = ⟨0, 0⟩ ∧
    (liveBarToHistoricalBar liveBar).askStoch = ⟨0, 0⟩ ∧
    (liveBarToHistoricalBar liveBar).bidCci = 0 ∧
    (liveBarToHistoricalBar liveBar).askCci = 0 ∧
    (liveBarToHistoricalBar liveBar).bidMfi = 0 ∧
    (liveBarToHistoricalBar liveBar).askMfi = 0 ∧
    (liveBarToHistoricalBar liveBar).bidKeltner = ⟨0, 0, 0⟩ ∧
    (liveBarToHistoricalBar liveBar).askKeltner = ⟨0, 0, 0⟩ ∧
    (liveBarToHistoricalBar liveBar).bidSupertrend = ⟨0, 0⟩ ∧
    (liveBarToHistoricalBar liveBar).askSupertrend = ⟨0, 0⟩ ∧
    (liveBarToHistoricalBar liveBar).bidVwap = ⟨none, none⟩ ∧
    (liveBarToHistoricalBar liveBar).askVwap = ⟨none, none⟩ ∧
    (liveBarToHistoricalBar liveBar).sequence = 1 ∧
    (∀ (am pip : ℚ), computeSlPips am (liveBarToHistoricalBar liveBar) pip = 10) ∧
    liveBarToHistoricalBar liveBar
      ∈ updateHistoricalSequenceOnLiveBarList old (liveBarToHistoricalBar liveBar) ∧
    e ∉ updateHistoricalSequenceOnLiveBarList old (liveBarToHistoricalBar liveBar) ∧
    (∀ x ∈ updateHistoricalSequenceOnLiveBarList old (liveBarToHistoricalBar liveBar),
      x.barEndTimestamp = liveBar.barEndTimestamp → x = liveBarToHistoricalBar liveBar) := by
  have hdef : ∀ (am pip : ℚ), computeSlPips am (liveBarToHistoricalBar liveBar) pip = 10 := by
    intro am pip
    simp [computeSlPips, availableAtr, liveBarToHistoricalBar]
  have hcts : (liveBarToHistoricalBar liveBar).barEndTimestamp = liveBar.barEndTimestamp := rfl
  have hne0 : replaceByTimestamp (liveBarToHistoricalBar liveBar) old ≠ none := by
    intro hc
    exact (replaceByTimestamp_eq_none _ old).mp hc e he (by rw [hts, hcts])
  cases hrep : replaceByTimestamp (liveBarToHistoricalBar liveBar) old with
  | none => exact absurd hrep hne0
  | some l' =>
    obtain ⟨l₁, b, l₂, hsp, hsp', hbts, hl₁⟩ :=
      replaceByTimestamp_eq_some (liveBarToHistoricalBar liveBar) old l' hrep
    have hcross : ∀ a ∈ l₁, ∀ c ∈ b :: l₂, TsNe a c := by
      rw [hsp] at hp
      exact (List.pairwise_append.mp hp).2.2
    have hmid : ∀ c ∈ l₂, TsNe b c := by
      rw [hsp] at hp
      exact (List.pairwise_cons.mp (List.pairwise_append.mp hp).2.1).1
    have hebts : e.barEndTimestamp = b.barEndTimestamp :=
      hts.trans (hbts.trans hcts).symm
    have heb : e = b := by
      rw [hsp] at he
      rcases List.mem_append.mp he with h1 | h1
      · exact absurd hebts (hcross e h1 b (List.mem_cons_self _ _))
      · rcases List.mem_cons.mp h1 with h2 | h2
        · exact h2
        · exact absurd hebts.symm (hmid e h2)
    have hll : l'.length = old.length := by
      rw [hsp, hsp']
      simp
    have hrl : updateHistoricalSequenceOnLiveBarList old (liveBarToHistoricalBar liveBar)
        = exchangeSort l' := by
      unfold updateHistoricalSequenceOnLiveBarList
      rw [hrep]
      refine List.take_of_length_le ?_
      rw [(exchangeSort_perm l').length_eq, hll]
      exact hlen
    have hmem : ∀ x : HistoricalBar,
        x ∈ updateHistoricalSequenceOnLiveBarList old (liveBarToHistoricalBar liveBar)
          ↔ x ∈ l' := by
      intro x
      rw [hrl]
      exact (exchangeSort_perm l').mem_iff
    refine ⟨rfl, rfl, rfl, rfl, rfl, rfl, rfl, rfl, rfl, rfl, rfl, rfl, rfl, rfl, rfl,
      rfl, rfl, rfl, rfl, rfl, rfl, rfl, rfl, hdef, ?_, ?_, ?_⟩
    · rw [hmem, hsp']
      exact List.mem_append_right _ (List.mem_cons_self _ _)
    · rw [hmem, hsp']
      intro hc
      have hene : e ≠ liveBarToHistoricalBar liveBar := by
        intro heq
        rw [heq] at hatr
        simp [liveBarToHistoricalBar] at hatr
      rcases List.mem_append.mp hc with h1 | h1
      · exact absurd hebts (hcross e h1 b (List.mem_cons_self _ _))
      · rcases List.mem_cons.mp h1 with h2 | h2
        · exact hene h2
        · exact absurd hebts.symm (hmid e h2)
    · intro x hx hxts
      rw [hmem] at hx
      rw [hsp'] at hx
      rcases List.mem_append.mp hx with h1 | h1
      · exact absurd (hxts.trans hcts.symm) (hl₁ x h1)
      · rcases List.mem_cons.mp h1 with h2 | h2
        · exact h2
        · exact absurd ((hbts.trans hcts).trans hxts.symm) (hmid x h2)

/-- Existing bulk-fetched entry with positive ATR for the C9 witness. -/
def c9Entry : HistoricalBar := { sampleBar 100 1 with bidAtr := 5 }

/-- C9 witness: merging the live bar with the same end timestamp over the
positive-ATR entry leaves only the zeroed conversion at that timestamp. -/
theorem C9_witness :
    (([c9Entry] : List HistoricalBar).Pairwise TsNe) ∧
    ([c9Entry] : List HistoricalBar).length ≤ barRingBufferSize ∧
    c9Entry.barEndTimestamp = (sampleLive 100).barEndTimestamp ∧
    0 < c9Entry.bidAtr ∧
    (liveBarToHistoricalBar (sampleLive 100)).bidAtr = 0 ∧
    (liveBarToHistoricalBar (sampleLive 100)).sequence = 1 ∧
    (∀ am pip : ℚ, computeSlPips am (liveBarToHistoricalBar (sampleLive 100)) pip = 10) ∧
    liveBarToHistoricalBar (sampleLive 100) ∈
      updateHistoricalSequenceOnLiveBarList [c9Entry]
        (liveBarToHistoricalBar (sampleLive 100)) ∧
    c9Entry ∉
      updateHistoricalSequenceOnLiveBarList [c9Entry]
        (liveBarToHistoricalBar (sampleLive 100)) := by
  have hatr : (0 : ℚ) < c9Entry.bidAtr := by
    show (0 : ℚ) < 5
    norm_num
  have h := C9_live_conversion_zeroes_indicators (sampleLive 100) [c9Entry] c9Entry
    (List.pairwise_singleton _ _) (by norm_num [barRingBufferSize])
    (List.mem_cons_self _ _) rfl hatr
  obtain ⟨h1, _, _, _, _, _, _, _, _, _, _, _, _, _, _, _, _, _, _, _, _, _, h23, h24,
    h25, h26, _⟩ := h
  exact ⟨List.pairwise_singleton _ _, by norm_num [barRingBufferSize], rfl, hatr,
    h1, h23, h24, h25, h26⟩

/-- C3 counterexample: `UpdateLiveBar` does not append to the secondary
live-bar ring.  On a fresh store the ring for the bar's key stays empty
instead of gaining the bar, so the claimed append does not happen. -/
theorem C3_counterexample :
    (UpdateLiveBar NewStateManager (sampleLive 100)).bars "EURUSD" "ONE_MIN" = [] ∧
    (UpdateLiveBar NewStateManager (sampleLive 100)).bars "EURUSD" "ONE_MIN"
      ≠ NewStateManager.bars "EURUSD" "ONE_MIN" ++ [sampleLive 100] := by
  exact ⟨by decide, by decide⟩

/-- C3 as amended: `UpdateLiveBar` leaves the secondary live-bar ring (and
ticks and account info, and every other canonical slot) untouched; it only
merges the converted bar into the canonical historical series of its
(instrument, period): with no timestamp match the conversion is prepended
as newest and the series trimmed to 200 (dedup removes nothing on a
duplicate-free series); with a timestamp match, on a canonical series the
first matching entry is replaced in place.  (The `UpdateBar` operation, not
`UpdateLiveBar`, is the one that appends to the live-bar ring.) -/
theorem C3_amended_live_merge (sm : StateManager) (b : Bar) :
    (UpdateLiveBar sm b).bars = sm.bars ∧
    (UpdateLiveBar sm b).ticks = sm.ticks ∧
    (UpdateLiveBar sm b).accountInfo = sm.accountInfo ∧
    (∀ i p, ¬(i = b.instrument ∧ p = b.period) →
      (UpdateLiveBar sm b).historicalBars i p = sm.historicalBars i p) ∧
    (UpdateLiveBar sm b).historicalBars b.instrument b.period
      = updateHistoricalSequenceOnLiveBarList (sm.historicalBars b.instrument b.period)
          (liveBarToHistoricalBar b) ∧
    ((sm.historicalBars b.instrument b.period).Pairwise TsNe →
      (∀ e ∈ sm.historicalBars b.instrument b.period,
        e.barEndTimestamp ≠ b.barEndTimestamp) →
      (UpdateLiveBar sm b).historicalBars b.instrument b.period
        = liveBarToHistoricalBar b ::
            (sm.historicalBars b.instrument b.period).take (barRingBufferSize - 1)) ∧
    ((sm.historicalBars b.instrument b.period).Pairwise TsNe →
      (sm.historicalBars b.instrument b.period).Sorted TsGe →
      (sm.historicalBars b.instrument b.period).length ≤ barRingBufferSize →
      (∃ e ∈ sm.historicalBars b.instrument b.period,
        e.barEndTimestamp = b.barEndTimestamp) →
      ∃ l₁ b₀ l₂, sm.historicalBars b.instrument b.period = l₁ ++ b₀ :: l₂ ∧
        b₀.barEndTimestamp = b.barEndTimestamp ∧
        (UpdateLiveBar sm b).historicalBars b.instrument b.period
          = l₁ ++ liveBarToHistoricalBar b :: l₂) := by
  have hkey : (UpdateLiveBar sm b).historicalBars b.instrument b.period
      = updateHistoricalSequenceOnLiveBarList (sm.historicalBars b.instrument b.period)
          (liveBarToHistoricalBar b) := by
    show (if b.instrument = b.instrument ∧ b.period = b.period then
        updateHistoricalSequenceOnLiveBarList (sm.historicalBars b.instrument b.period)
          (liveBarToHistoricalBar b)
      else sm.historicalBars b.instrument b.period)
      = updateHistoricalSequenceOnLiveBarList (sm.historicalBars b.instrument b.period)
          (liveBarToHistoricalBar b)
    rw [if_pos ⟨rfl, rfl⟩]
  have hcts : (liveBarToHistoricalBar b).barEndTimestamp = b.barEndTimestamp := rfl
  refine ⟨rfl, rfl, rfl, ?_, hkey, ?_, ?_⟩
  · intro i p hip
    show (if i = b.instrument ∧ p = b.period then _ else sm.historicalBars i p)
      = sm.historicalBars i p
    rw [if_neg hip]
  · intro hp hnone
    rw [hkey]
    exact updateHistoricalSequenceOnLiveBarList_prepend _ _ hp
      (fun e he hc => hnone e he (hc.trans hcts))
  · intro hp hsorted hlen hmatch
    obtain ⟨l₁, b₀, l₂, hsp, hts, _, hres⟩ :=
      updateHistoricalSequenceOnLiveBarList_replace
        (sm.historicalBars b.instrument b.period) (liveBarToHistoricalBar b) hp hsorted hlen
        (by
          obtain ⟨e, he, hets⟩ := hmatch
          exact ⟨e, he, hets.trans hcts.symm⟩)
    exact ⟨l₁, b₀, l₂, hsp, hts.trans hcts, by rw [hkey, hres]⟩

/-- C3 witness: on a store holding one older bar, `UpdateLiveBar` with a
fresh-timestamp live bar leaves the ring empty and prepends into the
canonical series. -/
theorem C3_witness :
    (UpdateLiveBar (UpdateLiveBar NewStateManager (sampleLive 50))
      (sampleLive 100)).bars = (UpdateLiveBar NewStateManager (sampleLive 50)).bars ∧
    ((((UpdateLiveBar NewStateManager (sampleLive 50)).historicalBars
      "EURUSD" "ONE_MIN").Pairwise TsNe) ∧
      (∀ e ∈ (UpdateLiveBar NewStateManager (sampleLive 50)).historicalBars
        "EURUSD" "ONE_MIN", e.barEndTimestamp ≠ (sampleLive 100).barEndTimestamp)) ∧
    (UpdateLiveBar (UpdateLiveBar NewStateManager (sampleLive 50))
        (sampleLive 100)).historicalBars "EURUSD" "ONE_MIN"
      = liveBarToHistoricalBar (sampleLive 100) ::
          ((UpdateLiveBar NewStateManager (sampleLive 50)).historicalBars
            "EURUSD" "ONE_MIN").take (barRingBufferSize - 1) := by
  have h := C3_amended_live_merge (UpdateLiveBar NewStateManager (sampleLive 50))
    (sampleLive 100)
  have hp : ((UpdateLiveBar NewStateManager (sampleLive 50)).historicalBars
      "EURUSD" "ONE_MIN").Pairwise TsNe := by decide
  have hnone : ∀ e ∈ (UpdateLiveBar NewStateManager (sampleLive 50)).historicalBars
      "EURUSD" "ONE_MIN", e.barEndTimestamp ≠ (sampleLive 100).barEndTimestamp := by decide
  exact ⟨h.1, ⟨hp, hnone⟩, h.2.2.2.2.2.1 hp hnone⟩

/-- C1 counterexample: two `UpdateLiveBar` calls from the empty store, first
timestamp 200 then timestamp 100, leave the canonical series as
[ts 100, ts 200] - the prepend path does not re-sort, so the series is not
ordered non-increasing by bar-end timestamp.  The legacy sequence-match path
breaks the ordering as well: after live bars 200 and 300 (both stored with
Sequence 1), a historical bar with Sequence 1 and timestamp 100 replaces the
ts-300 entry in place, leaving [ts 100, ts 200]. -/
theorem C1_counterexample :
    (runLedgerCalls [LedgerCall.live (sampleLive 200),
        LedgerCall.live (sampleLive 100)]).historicalBars "EURUSD" "ONE_MIN"
      = [sampleConv 100, sampleConv 200] ∧
    ¬ ((runLedgerCalls [LedgerCall.live (sampleLive 200),
        LedgerCall.live (sampleLive 100)]).historicalBars
        "EURUSD" "ONE_MIN").Sorted TsGe ∧
    (runLedgerCalls [LedgerCall.live (sampleLive 200), LedgerCall.live (sampleLive 300),
        LedgerCall.hist (sampleBar 100 1)]).historicalBars "EURUSD" "ONE_MIN"
      = [sampleBar 100 1, sampleConv 200] ∧
    ¬ ((runLedgerCalls [LedgerCall.live (sampleLive 200), LedgerCall.live (sampleLive 300),
        LedgerCall.hist (sampleBar 100 1)]).historicalBars
        "EURUSD" "ONE_MIN").Sorted TsGe := by
  exact ⟨by decide, by decide, by decide, by decide⟩

/-- C1 as amended: for every call sequence from the empty store, every
canonical series is duplicate-free by bar-end timestamp after every
mutation; the non-increasing ordering, however, is not an invariant - the
`UpdateLiveBar` prepend path and the legacy sequence-match path of
`UpdateHistoricalBar` can leave the series out of order. -/
theorem C1_amended_unique_timestamps (calls : List LedgerCall) (i p : String) :
    ((runLedgerCalls calls).historicalBars i p).Pairwise TsNe :=
  (seriesInv_runLedgerCalls calls i p).1

/-- Call trace for the C5 counterexample: m live bars with strictly
descending end timestamps 201, 200, ..., 202 - m. -/
def c5Feed (m : Nat) : List LedgerCall :=
  (List.range m).map (fun (k : Nat) => LedgerCall.live (sampleLive (201 - (k : Int))))

/-- Expected canonical series after `c5Feed m`: ascending timestamps
202 - m, ..., 201 (each new bar was prepended, so the oldest sits first). -/
def c5Series (m : Nat) : List HistoricalBar :=
  (List.range m).map (fun (k : Nat) => sampleConv (202 - (m : Int) + (k : Int)))

theorem c5Series_length (m : Nat) : (c5Series m).length = m := by
  simp [c5Series]

theorem c5Series_mem (m : Nat) (e : HistoricalBar) (he : e ∈ c5Series m) :
    ∃ k : Nat, k < m ∧ e = sampleConv (202 - (m : Int) + (k : Int)) := by
  unfold c5Series at he
  obtain ⟨k, hk, rfl⟩ := List.mem_map.mp he
  exact ⟨k, List.mem_range.mp hk, rfl⟩

theorem c5Series_pairwise (m : Nat) : (c5Series m).Pairwise TsNe := by
  unfold c5Series
  rw [List.pairwise_map]
  refine (List.pairwise_lt_range m).imp ?_
  intro a b hab
  show ¬ ((202 - (m : Int) + (a : Int)) = (202 - (m : Int) + (b : Int)))
  omega

theorem c5Feed_succ (m : Nat) :
    c5Feed (m + 1) = c5Feed m ++ [LedgerCall.live (sampleLive (201 - (m : Int)))] := by
  unfold c5Feed
  rw [List.range_succ m, List.map_append]
  rfl

theorem sampleConv_arg_congr {a b : Int} (h : a = b) : sampleConv a = sampleConv b := by
  rw [h]

theorem c5Series_succ (m : Nat) :
    c5Series (m + 1) = sampleConv (201 - (m : Int)) :: c5Series m := by
  unfold c5Series
  rw [List.range_succ_eq_map m, List.map_cons, List.map_map]
  refine congrArg₂ List.cons ?_ ?_
  · refine sampleConv_arg_congr ?_
    push_cast
    ring
  · refine List.map_congr_left ?_
    intro k hk
    refine sampleConv_arg_congr ?_
    omega

/-- Key-slot shape of `UpdateLiveBar`: at the bar's own (instrument, period)
the canonical series becomes the live-bar merge of the previous series. -/
theorem UpdateLiveBar_key (sm : StateManager) (b : Bar) (i p : String)
    (hi : i = b.instrument) (hp : p = b.period) :
    (UpdateLiveBar sm b).historicalBars i p
      = updateHistoricalSequenceOnLiveBarList (sm.historicalBars b.instrument b.period)
          (liveBarToHistoricalBar b) := by
  subst hi hp
  show (if b.instrument = b.instrument ∧ b.period = b.period then
      updateHistoricalSequenceOnLiveBarList (sm.historicalBars b.instrument b.period)
        (liveBarToHistoricalBar b)
    else sm.historicalBars b.instrument b.period)
    = updateHistoricalSequenceOnLiveBarList (sm.historicalBars b.instrument b.period)
        (liveBarToHistoricalBar b)
  rw [if_pos ⟨rfl, rfl⟩]

theorem c5_reach : ∀ m : Nat, m ≤ barRingBufferSize →
    (runLedgerCalls (c5Feed m)).historicalBars "EURUSD" "ONE_MIN" = c5Series m := by
  intro m
  induction m with
  | zero => intro _; rfl
  | succ m ih =>
    intro hm
    rw [c5Feed_succ m]
    unfold runLedgerCalls
    rw [List.foldl_append]
    show (UpdateLiveBar (runLedgerCalls (c5Feed m))
      (sampleLive (201 - (m : Int)))).historicalBars "EURUSD" "ONE_MIN" = c5Series (m + 1)
    rw [UpdateLiveBar_key (runLedgerCalls (c5Feed m)) (sampleLive (201 - (m : Int)))
      "EURUSD" "ONE_MIN" rfl rfl]
    show updateHistoricalSequenceOnLiveBarList
      ((runLedgerCalls (c5Feed m)).historicalBars "EURUSD" "ONE_MIN")
      (sampleConv (201 - (m : Int))) = c5Series (m + 1)
    rw [ih (by omega)]
    rw [updateHistoricalSequenceOnLiveBarList_prepend_small (c5Series m)
      (sampleConv (201 - (m : Int))) (c5Series_pairwise m) ?_ ?_]
    · exact (c5Series_succ m).symm
    · intro e he
      obtain ⟨k, hk, rfl⟩ := c5Series_mem m e he
      show ¬ ((202 - (m : Int) + (k : Int)) = 201 - (m : Int))
      omega
    · rw [c5Series_length m]
      show m ≤ barRingBufferSize - 1
      have hcap : barRingBufferSize = 200 := rfl
      omega

/-- C5 counterexample: feeding 200 live bars with descending timestamps
201..2 from the empty store yields a reachable series of exactly 200
entries whose oldest entry (timestamp 2) sits at the head.  Inserting a
fresh bar with timestamp 500 - strictly newer than every entry - then
evicts the entry with timestamp 201, the NEWEST entry, while the oldest
(timestamp 2) is retained: the claimed exactly-the-oldest eviction fails. -/
theorem C5_counterexample :
    (runLedgerCalls (c5Feed 200)).historicalBars "EURUSD" "ONE_MIN" = c5Series 200 ∧
    (c5Series 200).length = barRingBufferSize ∧
    sampleConv 2 ∈ c5Series 200 ∧
    sampleConv 201 ∈ c5Series 200 ∧
    (c5Series 200).all (fun e => decide (2 ≤ e.barEndTimestamp)) = true ∧
    (c5Series 200).all (fun e => decide (e.barEndTimestamp < 500)) = true ∧
    (runLedgerCalls (c5Feed 200 ++ [LedgerCall.live (sampleLive 500)])).historicalBars
        "EURUSD" "ONE_MIN"
      = sampleConv 500 :: (c5Series 200).take (barRingBufferSize - 1) ∧
    sampleConv 2 ∈ (runLedgerCalls (c5Feed 200 ++
      [LedgerCall.live (sampleLive 500)])).historicalBars "EURUSD" "ONE_MIN" ∧
    sampleConv 201 ∉ (runLedgerCalls (c5Feed 200 ++
      [LedgerCall.live (sampleLive 500)])).historicalBars "EURUSD" "ONE_MIN" := by
  have hreach : (runLedgerCalls (c5Feed 200)).historicalBars "EURUSD" "ONE_MIN"
      = c5Series 200 := c5_reach 200 (le_refl _)
  have hfresh : ∀ e ∈ c5Series 200,
      e.barEndTimestamp ≠ (sampleConv 500).barEndTimestamp := by
    intro e he
    obtain ⟨k, hk, rfl⟩ := c5Series_mem 200 e he
    show ¬ ((202 - ((200 : Nat) : Int) + (k : Int)) = 500)
    omega
  have hfin : (runLedgerCalls (c5Feed 200 ++
      [LedgerCall.live (sampleLive 500)])).historicalBars "EURUSD" "ONE_MIN"
      = sampleConv 500 :: (c5Series 200).take (barRingBufferSize - 1) := by
    unfold runLedgerCalls
    rw [List.foldl_append]
    show (UpdateLiveBar (runLedgerCalls (c5Feed 200))
      (sampleLive 500)).historicalBars "EURUSD" "ONE_MIN"
      = sampleConv 500 :: (c5Series 200).take (barRingBufferSize - 1)
    rw [UpdateLiveBar_key (runLedgerCalls (c5Feed 200)) (sampleLive 500)
      "EURUSD" "ONE_MIN" rfl rfl]
    rw [show (sampleLive 500).instrument = "EURUSD" from rfl,
      show (sampleLive 500).period = "ONE_MIN" from rfl,
      show liveBarToHistoricalBar (sampleLive 500) = sampleConv 500 from rfl,
      hreach]
    exact updateHistoricalSequenceOnLiveBarList_prepend (c5Series 200) (sampleConv 500)
      (c5Series_pairwise 200) hfresh
  have htake : (c5Series 200).take (barRingBufferSize - 1)
      = (List.range 199).map
          (fun (k : Nat) => sampleConv (202 - ((200 : Nat) : Int) + (k : Int))) := by
    show (c5Series 200).take 199 = _
    unfold c5Series
    rw [← List.map_take _ (List.range 200) 199, List.take_range 199 200,
      min_eq_left (by norm_num)]
  have hmem2 : sampleConv 2 ∈ c5Series 200 := by
    unfold c5Series
    refine List.mem_map.mpr ⟨0, List.mem_range.mpr (by omega), ?_⟩
    refine sampleConv_arg_congr ?_
    omega
  have hmem201 : sampleConv 201 ∈ c5Series 200 := by
    unfold c5Series
    refine List.mem_map.mpr ⟨199, List.mem_range.mpr (by omega), ?_⟩
    refine sampleConv_arg_congr ?_
    omega
  have hall2 : (c5Series 200).all (fun e => decide (2 ≤ e.barEndTimestamp)) = true := by
    rw [List.all_eq_true]
    intro e he
    obtain ⟨k, hk, rfl⟩ := c5Series_mem 200 e he
    refine decide_eq_true ?_
    show (2 : Int) ≤ 202 - ((200 : Nat) : Int) + (k : Int)
    omega
  have hall500 : (c5Series 200).all (fun e => decide (e.barEndTimestamp < 500)) = true := by
    rw [List.all_eq_true]
    intro e he
    obtain ⟨k, hk, rfl⟩ := c5Series_mem 200 e he
    refine decide_eq_true ?_
    show (202 - ((200 : Nat) : Int) + (k : Int)) < 500
    omega
  refine ⟨hreach, c5Series_length 200, hmem2, hmem201, hall2, hall500, hfin, ?_, ?_⟩
  · rw [hfin, htake]
    refine List.mem_cons_of_mem _
      (List.mem_map.mpr ⟨0, List.mem_range.mpr (by omega), ?_⟩)
    refine sampleConv_arg_congr ?_
    omega
  · rw [hfin, htake]
    intro hc
    rcases List.mem_cons.mp hc with h1 | h1
    · have h2 : (sampleConv 201).barEndTimestamp = (sampleConv 500).barEndTimestamp :=
        congrArg HistoricalBar.barEndTimestamp h1
      have h3 : (201 : Int) = 500 := h2
      omega
    · obtain ⟨k, hk, he⟩ := List.mem_map.mp h1
      have hts : (202 - ((200 : Nat) : Int) + (k : Int)) = 201 :=
        congrArg HistoricalBar.barEndTimestamp he
      have hk2 : k < 199 := List.mem_range.mp hk
      omega

/-- C5 as amended: every canonical series stays within the 200-entry cap
after any call sequence; at capacity, inserting a strictly newer fresh bar
through `UpdateHistoricalBar` evicts exactly the minimum-timestamp entry on
any duplicate-free series (the insert path re-sorts), while the same holds
for `UpdateLiveBar` only when the series is additionally sorted
newest-first - an out-of-order reachable series can make `UpdateLiveBar`
evict a different entry (see the counterexample). -/
theorem C5_amended_capacity_eviction :
    (∀ (calls : List LedgerCall) (i p : String),
      ((runLedgerCalls calls).historicalBars i p).length ≤ barRingBufferSize) ∧
    (∀ (old : List HistoricalBar) (bar minEntry : HistoricalBar),
      old.Pairwise TsNe → old.length = barRingBufferSize →
      (∀ b ∈ old, b.barEndTimestamp ≠ bar.barEndTimestamp) →
      (bar.sequence = 0 ∨ ∀ b ∈ old, b.sequence ≠ bar.sequence) →
      minEntry ∈ old →
      (∀ e ∈ old, e ≠ minEntry → minEntry.barEndTimestamp < e.barEndTimestamp) →
      minEntry.barEndTimestamp < bar.barEndTimestamp →
      (updateHistoricalBarList old bar).length = barRingBufferSize ∧
        bar ∈ updateHistoricalBarList old bar ∧
        minEntry ∉ updateHistoricalBarList old bar ∧
        ∀ e ∈ old, e ≠ minEntry → e ∈ updateHistoricalBarList old bar) ∧
    (∀ (old : List HistoricalBar) (conv minEntry : HistoricalBar),
      old.Pairwise TsNe → old.Sorted TsGe → old.length = barRingBufferSize →
      (∀ b ∈ old, b.barEndTimestamp ≠ conv.barEndTimestamp) →
      minEntry ∈ old →
      (∀ e ∈ old, e ≠ minEntry → minEntry.barEndTimestamp < e.barEndTimestamp) →
      minEntry.barEndTimestamp < conv.barEndTimestamp →
      (updateHistoricalSequenceOnLiveBarList old conv).length = barRingBufferSize ∧
        conv ∈ updateHistoricalSequenceOnLiveBarList old conv ∧
        minEntry ∉ updateHistoricalSequenceOnLiveBarList old conv ∧
        ∀ e ∈ old, e ≠ minEntry → e ∈ updateHistoricalSequenceOnLiveBarList old conv) := by
  refine ⟨fun calls i p => (seriesInv_runLedgerCalls calls i p).2, ?_, ?_⟩
  · intro old bar minEntry hp hlen hfresh hseqfree hmem hmin hbar
    exact updateHistoricalBarList_evicts_min old bar minEntry hp hlen hfresh hseqfree
      hmem hmin hbar
  · intro old conv minEntry hp hsorted hlen hfresh hmem hmin hconv
    exact updateHistoricalSequenceOnLiveBarList_evicts_min old conv minEntry hp hsorted
      hlen hfresh hmem hmin hconv

/-- Canonical (sorted, duplicate-free) full series for the C5 witness:
timestamps 200 down to 1. -/
def c5Desc : List HistoricalBar :=
  (List.range 200).map (fun (k : Nat) => sampleBar (200 - (k : Int)) 0)

theorem sampleBar_arg_congr {a b : Int} (h : a = b) : sampleBar a 0 = sampleBar b 0 := by
  rw [h]

theorem c5Desc_mem (e : HistoricalBar) (he : e ∈ c5Desc) :
    ∃ k : Nat, k < 200 ∧ e = sampleBar (200 - (k : Int)) 0 := by
  unfold c5Desc at he
  obtain ⟨k, hk, rfl⟩ := List.mem_map.mp he
  exact ⟨k, List.mem_range.mp hk, rfl⟩

theorem c5Desc_pairwise : c5Desc.Pairwise TsNe := by
  unfold c5Desc
  rw [List.pairwise_map]
  refine (List.pairwise_lt_range 200).imp ?_
  intro a b hab
  show ¬ ((200 - (a : Int)) = (200 - (b : Int)))
  omega

theorem c5Desc_sorted : c5Desc.Sorted TsGe := by
  unfold c5Desc
  unfold List.Sorted
  rw [List.pairwise_map]
  refine (List.pairwise_lt_range 200).imp ?_
  intro a b hab
  show (200 - (b : Int)) ≤ (200 - (a : Int))
  omega

/-- C5 witness: on the canonical full series with timestamps 200..1, both
insertion paths with a fresh strictly newer bar (timestamp 500) evict
exactly the timestamp-1 entry and retain everything else. -/
theorem C5_witness :
    c5Desc.Pairwise TsNe ∧ c5Desc.Sorted TsGe ∧ c5Desc.length = barRingBufferSize ∧
    (∀ b ∈ c5Desc, b.barEndTimestamp ≠ (sampleBar 500 0).barEndTimestamp) ∧
    (sampleBar 500 0).sequence = 0 ∧
    sampleBar 1 0 ∈ c5Desc ∧
    (∀ e ∈ c5Desc, e ≠ sampleBar 1 0 →
      (sampleBar 1 0).barEndTimestamp < e.barEndTimestamp) ∧
    (sampleBar 1 0).barEndTimestamp < (sampleBar 500 0).barEndTimestamp ∧
    ((updateHistoricalBarList c5Desc (sampleBar 500 0)).length = barRingBufferSize ∧
      sampleBar 500 0 ∈ updateHistoricalBarList c5Desc (sampleBar 500 0) ∧
      sampleBar 1 0 ∉ updateHistoricalBarList c5Desc (sampleBar 500 0) ∧
      ∀ e ∈ c5Desc, e ≠ sampleBar 1 0 →
        e ∈ updateHistoricalBarList c5Desc (sampleBar 500 0)) ∧
    ((updateHistoricalSequenceOnLiveBarList c5Desc (sampleConv 500)).length
        = barRingBufferSize ∧
      sampleConv 500 ∈ updateHistoricalSequenceOnLiveBarList c5Desc (sampleConv 500) ∧
      sampleBar 1 0 ∉ updateHistoricalSequenceOnLiveBarList c5Desc (sampleConv 500) ∧
      ∀ e ∈ c5Desc, e ≠ sampleBar 1 0 →
        e ∈ updateHistoricalSequenceOnLiveBarList c5Desc (sampleConv 500)) := by
  have hlen : c5Desc.length = barRingBufferSize := by
    simp [c5Desc, barRingBufferSize]
  have hfresh : ∀ b ∈ c5Desc, b.barEndTimestamp ≠ (sampleBar 500 0).barEndTimestamp := by
    intro b hb
    obtain ⟨k, hk, rfl⟩ := c5Desc_mem b hb
    show ¬ ((200 - (k : Int)) = 500)
    omega
  have hfreshc : ∀ b ∈ c5Desc, b.barEndTimestamp ≠ (sampleConv 500).barEndTimestamp := by
    intro b hb
    obtain ⟨k, hk, rfl⟩ := c5Desc_mem b hb
    show ¬ ((200 - (k : Int)) = 500)
    omega
  have hmem : sampleBar 1 0 ∈ c5Desc := by
    unfold c5Desc
    refine List.mem_map.mpr ⟨199, List.mem_range.mpr (by omega), ?_⟩
    refine sampleBar_arg_congr ?_
    omega
  have hmin : ∀ e ∈ c5Desc, e ≠ sampleBar 1 0 →
      (sampleBar 1 0).barEndTimestamp < e.barEndTimestamp := by
    intro e he hne
    obtain ⟨k, hk, rfl⟩ := c5Desc_mem e he
    by_cases h199 : k = 199
    · subst h199
      exact absurd (sampleBar_arg_congr (by omega)) hne
    · show (1 : Int) < 200 - (k : Int)
      omega
  have hbar : (sampleBar 1 0).barEndTimestamp < (sampleBar 500 0).barEndTimestamp := by
    show (1 : Int) < 500
    omega
  have hbarc : (sampleBar 1 0).barEndTimestamp < (sampleConv 500).barEndTimestamp := by
    show (1 : Int) < 500
    omega
  exact ⟨c5Desc_pairwise, c5Desc_sorted, hlen, hfresh, rfl, hmem, hmin, hbar,
    C5_amended_capacity_eviction.2.1 c5Desc (sampleBar 500 0) (sampleBar 1 0)
      c5Desc_pairwise hlen hfresh (Or.inl rfl) hmem hmin hbar,
    C5_amended_capacity_eviction.2.2 c5Desc (sampleConv 500) (sampleBar 1 0)
      c5Desc_pairwise c5Desc_sorted hlen hfreshc hmem hmin hbarc⟩

end GoTrader
